import Mathlib

/-!
Package `inputsource`: key resolution over nested records and the typed accessors

A shallow embedding of `inputsource.go` (package `inputsource`).

Modelling conventions.

* A Go string is the list of its bytes (`GoString`), so `len`, slicing and
  `strings.LastIndex` are byte operations as in Go.  `str` gives the UTF-8
  bytes of a literal.
* The code of other packages that `getField` runs is a parameter, `Runtime`:
  `strings.ToLower` (with its Unicode tables), the test whether a field name
  is exported, and the part of the `FieldByNameFunc` of `reflect` that
  searches the promoted fields of embedded structs (it runs over the declared
  types of the embedded fields, which the value of a record does not
  determine).  The structure carries what is used of them: `strings.ToLower`
  maps `'A'..'Z'` to `'a'..'z'` on ASCII strings and gives the empty string
  only for the empty string, an ASCII first letter is exported exactly when it
  is in `'A'..'Z'`, and the search of the promoted fields finds nothing when
  the predicate accepts no non-empty name.  The top level of
  `FieldByNameFunc`, the fields of the struct itself, is defined here.
* A `reflect.Value` that is valid is a `GoValue` together with its read-only
  flag where that matters; the zero `reflect.Value` is `none` in an
  `Option GoValue`.
* A record is a struct value: the list of its own fields in declaration
  order, each with its name, whether it is embedded, and its value.
* A run-time panic is an `Except.error`; a normal return is `Except.ok`.
* The two loops of `getField` are bounded by a fuel counter so that the
  definitions are structurally recursive and evaluate in the kernel; `getField`
  starts the outer one with `len(key) + 1` and each run of the inner one with
  `len(key) + 2`, which is proved to be always enough.
-/

namespace Inputsource

/-- A byte. -/
abbrev Byte := Fin 256

/-- Go `string`, as the list of its bytes. -/
abbrev GoString := List Byte

/-- Go `int` (no arithmetic is performed on these values by the package). -/
abbrev GoInt := ℤ

/-- Go `bool`. -/
abbrev GoBool := Bool

/-- The byte with the given number (taken modulo 256). -/
def byte (n : Nat) : Byte :=
  ⟨n % 256, Nat.mod_lt n (by decide)⟩

/-- The UTF-8 encoding of a character. -/
def utf8 (c : Char) : GoString :=
  if c.toNat < 0x80 then [byte c.toNat]
  else if c.toNat < 0x800 then [byte (0xC0 + c.toNat / 64), byte (0x80 + c.toNat % 64)]
  else if c.toNat < 0x10000 then
    [byte (0xE0 + c.toNat / 4096), byte (0x80 + c.toNat / 64 % 64), byte (0x80 + c.toNat % 64)]
  else
    [byte (0xF0 + c.toNat / 262144), byte (0x80 + c.toNat / 4096 % 64),
      byte (0x80 + c.toNat / 64 % 64), byte (0x80 + c.toNat % 64)]

/-- The Go string of a literal: its UTF-8 bytes. -/
def str (s : String) : GoString :=
  s.toList.flatMap utf8

/-- The byte of the character `-`. -/
def dash : Byte := 45

/-- A field of a struct: its name, whether it is an embedded field, and its
value. -/
structure Field (α : Type) where
  name : GoString
  embedded : Bool
  value : α

/-- Dynamically typed Go values that can sit in a field of a configuration
record.  The constructor fixes the dynamic type. -/
inductive GoValue where
  /-- a value of type `int` -/
  | int (n : GoInt)
  /-- a value of type `time.Duration` (nanoseconds) -/
  | duration (ns : GoInt)
  /-- a value of type `float64`, as its 64-bit pattern -/
  | float64 (bits : Nat)
  /-- a value of type `string` -/
  | string (s : GoString)
  /-- a value of type `bool` -/
  | bool (b : GoBool)
  /-- a value of type `[]string`; `none` is the nil slice -/
  | stringSlice (xs : Option (List GoString))
  /-- a value of type `[]int`; `none` is the nil slice -/
  | intSlice (xs : Option (List GoInt))
  /-- a value of type `net.IP` (a byte slice); `none` is the nil address -/
  | ip (a : Option (List Nat))
  /-- a value of any other type whose kind is none of pointer, struct and
  interface (a named integer, a map, a channel, ...), given by its type name
  and a rendering of its contents -/
  | other (typeName : GoString) (repr : GoString)
  /-- a nil pointer -/
  | nilPtr
  /-- a non-nil pointer to `elem` -/
  | ptr (elem : GoValue)
  /-- a struct value with its fields in declaration order -/
  | struct (fields : List (Field GoValue))
  /-- the value of a field of interface type: `none` for the nil interface,
  else the dynamic value it holds; as a result of `Interface()`, `iface none`
  is the nil interface value -/
  | iface (dyn : Option GoValue)

/-- The fields of a record in declaration order. -/
abbrev Fields := List (Field GoValue)

/-- A field that is not embedded, with the name given by a literal. -/
def fld (name : String) (value : GoValue) : Field GoValue :=
  Field.mk (str name) false value

/-- Run-time panics that the package can raise or run into. -/
inductive Panic where
  /-- `panic("inputsource: structure is not a struct")` in `New` -/
  | notAStruct
  /-- `panic(fmt.Errorf("could not find key: %s", key))` in `getField` -/
  | couldNotFindKey (key : GoString)
  /-- `reflect`: call of `reflect.Value.Interface` on zero Value -/
  | interfaceOnZeroValue
  /-- `reflect.Value.Interface`: cannot return value obtained from unexported
  field or method -/
  | interfaceOnUnexported
  /-- `reflect`: call of `reflect.Value.Type` on zero Value -/
  | typeOnZeroValue
  /-- `reflect`: indirection through nil pointer to embedded struct -/
  | nilEmbeddedPointer
  /-- slice bounds out of range in `key[len(test)+1:]` -/
  | sliceBoundsOutOfRange
  /-- the fuel of a loop of the model ran out (never produced by `getField`) -/
  | outOfFuel
  deriving DecidableEq, Repr

/-- What `FieldByNameFunc` comes to: a field, no field (the zero Value), or
the panic of `FieldByIndex` on a nil pointer to an embedded struct. -/
inductive Lookup where
  | found (f : Field GoValue)
  | notFound
  | nilEmbedded

/-- Whether a lookup found no field. -/
def Lookup.isNotFound : Lookup → Bool
  | Lookup.notFound => true
  | _ => false

/-- Whether every byte of a string is ASCII. -/
def isASCII (s : GoString) : Bool :=
  s.all (fun c => decide (c.val < 128))

/-- The lower-case letter of a byte in `'A'..'Z'`, any other byte unchanged. -/
def lowerByte (c : Byte) : Byte :=
  if 65 ≤ c.val ∧ c.val ≤ 90 then byte (c.val + 32) else c

/-- What `strings.ToLower` does on an ASCII string. -/
def asciiToLower (s : GoString) : GoString :=
  s.map lowerByte

/-- The code of other packages that `getField` runs, and what is used of it. -/
structure Runtime where
  /-- Go `strings.ToLower` -/
  ToLower : GoString → GoString
  /-- on an ASCII string `strings.ToLower` maps `'A'..'Z'` to `'a'..'z'` -/
  ToLower_ascii : ∀ s : GoString, isASCII s = true → ToLower s = asciiToLower s
  /-- `strings.ToLower` gives the empty string only for the empty string -/
  ToLower_eq_nil : ∀ s : GoString, ToLower s = [] → s = []
  /-- whether a field name is exported (its first letter is upper case) -/
  IsExported : GoString → Bool
  /-- an ASCII first letter is upper case exactly when it is in `'A'..'Z'` -/
  IsExported_ascii : ∀ (c : Byte) (s : GoString), c.val < 128 →
    IsExported (c :: s) = decide (65 ≤ c.val ∧ c.val ≤ 90)
  /-- the search of `FieldByNameFunc` below the top level of a struct with
  embedded fields, run when no field of the top level matches: it depends on
  the declarations of the embedded types, after which the embedded fields are
  named -/
  promoted : Fields → (GoString → Bool) → Lookup
  /-- the search finds nothing when the predicate accepts no non-empty name
  (the name of a field is never empty) -/
  promoted_no_match : ∀ (v : Fields) (m : GoString → Bool),
    (∀ name : GoString, name ≠ [] → m name = false) → promoted v m = Lookup.notFound

/-- Go `strings.Replace(s, "-", "", -1)`: every `-` removed. -/
def ReplaceDash (s : GoString) : GoString :=
  s.filter (fun c => c != dash)

/-- Go `strings.LastIndex(s, "-")`: the index of the last `-` in `s`, or `-1`. -/
def LastIndexDash : GoString → ℤ
  | [] => -1
  | c :: cs =>
    if LastIndexDash cs != -1 then LastIndexDash cs + 1
    else if c == dash then 0
    else -1

/-- Go `Value.FieldByNameFunc` on a struct value.  The fields of the struct
itself come first: one of them satisfying `m` is the result, several cancel
each other and give the zero Value.  When none of them satisfies `m`, a struct
without embedded fields gives the zero Value, and for one with embedded fields
the search goes on below (`Runtime.promoted`). -/
def FieldByNameFunc (R : Runtime) (v : Fields) (m : GoString → Bool) : Lookup :=
  match v.filter (fun f => m f.name) with
  | [f] => Lookup.found f
  | [] => if v.any (fun f => f.embedded) then R.promoted v m else Lookup.notFound
  | _ => Lookup.notFound

/-- Go `reflect.Indirect`: the pointee of a pointer (the zero Value for a nil
pointer), any other value unchanged. -/
def Indirect : GoValue → Option GoValue
  | GoValue.nilPtr => none
  | GoValue.ptr elem => some elem
  | v => some v

/-- Go `Value.Interface` on a valid value that is not read-only: the value
itself, and for a value of interface kind the dynamic value it holds. -/
def Interface : GoValue → GoValue
  | GoValue.iface (some dyn) => dyn
  | v => v

/-- The test `f.Type().Kind() == reflect.Struct` on a valid value, giving the
fields of the struct when it holds. -/
def structFields : GoValue → Option Fields
  | GoValue.struct fields => some fields
  | _ => none

/-- What one run of the inner `for` loop of `getField` ends with. -/
inductive Scan where
  /-- `return f.Interface(), true` -/
  | found (val : GoValue)
  /-- `continue RECURSE` with the new `v` (its read-only flag and its fields)
  and the new `key` -/
  | recurse (ro : Bool) (v : Fields) (key : GoString)
  /-- a panic raised inside the loop body -/
  | abort (p : Panic)
  /-- the loop condition `i != -1` failed: every prefix was tried -/
  | exhausted

/-- The inner loop of `getField` (lines 39-66), from index `i` on.  `ro` is the
read-only flag that `v` hands down to its fields: it is set when `v` was
reached through an unexported field that is not embedded. -/
def scanPrefixes (R : Runtime) (ro : Bool) (v : Fields) (key : GoString) : Nat → ℤ → Scan
  | 0, _ => Scan.abort Panic.outOfFuel
  | fuel + 1, i =>
    if i == -1 then Scan.exhausted
    else
      -- strip out "-"
      let test := R.ToLower (ReplaceDash (key.take i.toNat))
      -- find field case-insensitively
      match FieldByNameFunc R v (fun name => test == R.ToLower name) with
      | Lookup.nilEmbedded => Scan.abort Panic.nilEmbeddedPointer
      | Lookup.notFound =>
        -- field not found
        scanPrefixes R ro v key fuel (LastIndexDash (key.take i.toNat))
      | Lookup.found fd =>
        match Indirect fd.value with
        | none =>
          -- f is the zero Value: Interface and Type both panic on it
          if i == key.length then Scan.abort Panic.interfaceOnZeroValue
          else Scan.abort Panic.typeOnZeroValue
        | some f =>
          if i == key.length then
            -- found complete match, return regardless of type;
            -- Interface panics on a value obtained from an unexported field
            if ro || !R.IsExported fd.name then Scan.abort Panic.interfaceOnUnexported
            else Scan.found (Interface f)
          else
            match structFields f with
            | some fields =>
              -- found struct match for partial key name, recurse
              if test.length + 1 ≤ key.length then
                Scan.recurse (ro || (!R.IsExported fd.name && !fd.embedded)) fields
                  (key.drop (test.length + 1))
              else Scan.abort Panic.sliceBoundsOutOfRange
            | none =>
              scanPrefixes R ro v key fuel (LastIndexDash (key.take i.toNat))

/-- The outer loop of `getField` (label `RECURSE`, lines 37-69). -/
def getFieldLoop (R : Runtime) :
    Nat → Bool → Fields → GoString → Except Panic (GoValue × Bool)
  | 0, _, _, _ => Except.error Panic.outOfFuel
  | fuel + 1, ro, v, key =>
    match scanPrefixes R ro v key (key.length + 2) key.length with
    | Scan.found val => Except.ok (val, true)
    | Scan.recurse ro1 v1 key1 => getFieldLoop R fuel ro1 v1 key1
    | Scan.abort p => Except.error p
    | Scan.exhausted => Except.error (Panic.couldNotFindKey key)

/-- Go `getField(v, key)` for a struct value `v` with the given fields and
read-only flag. -/
def getField (R : Runtime) (ro : Bool) (v : Fields) (key : GoString) :
    Except Panic (GoValue × Bool) :=
  getFieldLoop R (key.length + 1) ro v key

/-- Go `error` values produced by `fmt.Errorf`: the message. -/
abbrev GoError := GoString

/-- The library code that the accessors call and that is not part of the
package: what `getField` runs (`Runtime`), the `%T` and `%v` verbs of `fmt`,
`net.IP.String`, and the method sets that decide the type assertions to
`cli.Generic` and to `Genericer`. -/
structure Lib extends Runtime where
  /-- the `%T` rendering of a value: its dynamic type -/
  fmtT : GoValue → GoString
  /-- the `%v` rendering of a value -/
  fmtV : GoValue → GoString
  /-- the canonical text `ip.String()` of a non-nil address -/
  ipString : List Nat → GoString
  /-- whether `val.(cli.Generic)` succeeds -/
  isGeneric : GoValue → Bool
  /-- `none` when `val.(Genericer)` fails, else the result of `ret.Generic()`
  (a `cli.Generic`, where `none` is the nil interface) -/
  genericer : GoValue → Option (Option GoValue)

/-- The error `fmt.Errorf("could not convert %T{%v} to <target> for %s", val, val, name)`. -/
def couldNotConvert (L : Lib) (val : GoValue) (target name : GoString) : GoError :=
  (str "could not convert ") ++ L.fmtT val ++ (str "\x7b") ++ L.fmtV val
    ++ (str "\x7d to ") ++ target ++ (str " for ") ++ name

/-- Go `InputSource`: `data` is a `reflect.Value` of kind struct, held as
the fields of that struct; coming from `reflect.ValueOf`, it is not read-only. -/
structure InputSource where
  data : Fields

/-- Go `New(data)`; `none` is the nil interface value. -/
def New (data : Option GoValue) : Except Panic InputSource :=
  -- value := reflect.Indirect(reflect.ValueOf(data))
  match data.bind Indirect with
  | none => Except.error Panic.notAStruct
  | some value =>
    match structFields value with
    | none => Except.error Panic.notAStruct
    | some fields => Except.ok (InputSource.mk fields)

/-- Go `(*InputSource).get`. -/
def InputSource.get (R : Runtime) (s : InputSource) (key : GoString) :
    Except Panic (GoValue × Bool) :=
  getField R false s.data key

/-- Lines 78-86: what `Int` does with the result of `s.get(name)`. -/
def intOf (L : Lib) (name : GoString) (r : GoValue × Bool) : GoInt × Option GoError :=
  if !r.2 then (0, none)
  else
    match r.1 with
    | GoValue.int ret => (ret, none)
    | val => (0, some (couldNotConvert L val (str "int") name))

/-- Go `(*InputSource).Int`. -/
def InputSource.Int (L : Lib) (s : InputSource) (name : GoString) :
    Except Panic (GoInt × Option GoError) :=
  (s.get L.toRuntime name).map (intOf L name)

/-- Lines 91-99: what `Duration` does with the result of `s.get(name)`. -/
def durationOf (L : Lib) (name : GoString) (r : GoValue × Bool) : GoInt × Option GoError :=
  if !r.2 then (0, none)
  else
    match r.1 with
    | GoValue.duration ret => (ret, none)
    | val => (0, some (couldNotConvert L val (str "time.Duration") name))

/-- Go `(*InputSource).Duration`. -/
def InputSource.Duration (L : Lib) (s : InputSource) (name : GoString) :
    Except Panic (GoInt × Option GoError) :=
  (s.get L.toRuntime name).map (durationOf L name)

/-- Lines 104-112: what `Float64` does with the result of `s.get(name)`;
the result is the bit pattern, `0` being that of `0.0`. -/
def float64Of (L : Lib) (name : GoString) (r : GoValue × Bool) : Nat × Option GoError :=
  if !r.2 then (0, none)
  else
    match r.1 with
    | GoValue.float64 ret => (ret, none)
    | val => (0, some (couldNotConvert L val (str "float64") name))

/-- Go `(*InputSource).Float64`. -/
def InputSource.Float64 (L : Lib) (s : InputSource) (name : GoString) :
    Except Panic (Nat × Option GoError) :=
  (s.get L.toRuntime name).map (float64Of L name)

/-- Lines 117-133: what `String` does with the result of `s.get(name)`. -/
def stringOf (L : Lib) (name : GoString) (r : GoValue × Bool) : GoString × Option GoError :=
  if !r.2 then ([], none)
  else
    match r.1 with
    | GoValue.string ret => (ret, none)
    | GoValue.ip none => ([], none)
    | GoValue.ip (some a) => (L.ipString a, none)
    | val => ([], some (couldNotConvert L val (str "string") name))

/-- Go `(*InputSource).String`. -/
def InputSource.String (L : Lib) (s : InputSource) (name : GoString) :
    Except Panic (GoString × Option GoError) :=
  (s.get L.toRuntime name).map (stringOf L name)

/-- Lines 138-146: what `StringSlice` does with the result of `s.get(name)`. -/
def stringSliceOf (L : Lib) (name : GoString) (r : GoValue × Bool) :
    Option (List GoString) × Option GoError :=
  if !r.2 then (none, none)
  else
    match r.1 with
    | GoValue.stringSlice ret => (ret, none)
    | val => (none, some (couldNotConvert L val (str "[]string") name))

/-- Go `(*InputSource).StringSlice`. -/
def InputSource.StringSlice (L : Lib) (s : InputSource) (name : GoString) :
    Except Panic (Option (List GoString) × Option GoError) :=
  (s.get L.toRuntime name).map (stringSliceOf L name)

/-- Lines 151-159: what `IntSlice` does with the result of `s.get(name)`. -/
def intSliceOf (L : Lib) (name : GoString) (r : GoValue × Bool) :
    Option (List GoInt) × Option GoError :=
  if !r.2 then (none, none)
  else
    match r.1 with
    | GoValue.intSlice ret => (ret, none)
    | val => (none, some (couldNotConvert L val (str "[]int") name))

/-- Go `(*InputSource).IntSlice`. -/
def InputSource.IntSlice (L : Lib) (s : InputSource) (name : GoString) :
    Except Panic (Option (List GoInt) × Option GoError) :=
  (s.get L.toRuntime name).map (intSliceOf L name)

/-- Lines 168-180: what `Generic` does with the result of `s.get(name)`;
the `cli.Generic` result is `none` for the nil interface. -/
def genericOf (L : Lib) (name : GoString) (r : GoValue × Bool) :
    Option GoValue × Option GoError :=
  if !r.2 then (none, none)
  else if L.isGeneric r.1 then (some r.1, none)
  else
    match L.genericer r.1 with
    | some g => (g, none)
    | none => (none, some (couldNotConvert L r.1 (str "cli.Generic") name))

/-- Go `(*InputSource).Generic`. -/
def InputSource.Generic (L : Lib) (s : InputSource) (name : GoString) :
    Except Panic (Option GoValue × Option GoError) :=
  (s.get L.toRuntime name).map (genericOf L name)

/-- Lines 185-193: what `Bool` does with the result of `s.get(name)`. -/
def boolOf (L : Lib) (name : GoString) (r : GoValue × Bool) : GoBool × Option GoError :=
  if !r.2 then (false, none)
  else
    match r.1 with
    | GoValue.bool ret => (ret, none)
    | val => (false, some (couldNotConvert L val (str "bool") name))

/-- Go `(*InputSource).Bool`. -/
def InputSource.Bool (L : Lib) (s : InputSource) (name : GoString) :
    Except Panic (GoBool × Option GoError) :=
  (s.get L.toRuntime name).map (boolOf L name)

/-- Lines 198-206: what `BoolT` does with the result of `s.get(name)`. -/
def boolTOf (L : Lib) (name : GoString) (r : GoValue × Bool) : GoBool × Option GoError :=
  if !r.2 then (true, none)
  else
    match r.1 with
    | GoValue.bool ret => (ret, none)
    | val => (true, some (couldNotConvert L val (str "boolT") name))

/-- Go `(*InputSource).BoolT`. -/
def InputSource.BoolT (L : Lib) (s : InputSource) (name : GoString) :
    Except Panic (GoBool × Option GoError) :=
  (s.get L.toRuntime name).map (boolTOf L name)

/-! ## Vocabulary of the statements -/

/-- Go `strings.Join(segs, "-")`: the key spelled by a list of segments. -/
def joinDash : List GoString → GoString
  | [] => []
  | [s] => s
  | s :: t :: rest => s ++ dash :: joinDash (t :: rest)

/-- No field of the record `v` matches the lower-cased string `test`: no field
of the record itself has a lower-cased name equal to it, and when the record
has embedded fields the search of their promoted fields finds none either. -/
abbrev noFieldMatches (R : Runtime) (v : Fields) (test : GoString) : Prop :=
  (∀ f ∈ v, R.ToLower f.name ≠ test) ∧
  (v.any (fun f => f.embedded) = true →
    (R.promoted v (fun name => test == R.ToLower name)).isNotFound = true)

/-- The body of the inner loop of `getField` at index `j` ends in `continue`:
the lookup of the prefix `key[:j]` finds no field, or the prefix is a proper
one and the field found holds, one pointer removed, no record. -/
def continuesAt (R : Runtime) (v : Fields) (key : GoString) (j : Nat) : Prop :=
  FieldByNameFunc R v
    (fun name => R.ToLower (ReplaceDash (key.take j)) == R.ToLower name) = Lookup.notFound ∨
  (j ≠ key.length ∧ ∃ fd g,
    FieldByNameFunc R v
      (fun name => R.ToLower (ReplaceDash (key.take j)) == R.ToLower name) = Lookup.found fd ∧
    Indirect fd.value = some g ∧ structFields g = none)

/-- The instance of the code of other packages for the concrete examples: it
stands for that code on ASCII names and keys and on records without embedded
fields (`strings.ToLower` on ASCII strings, a name exported when its first
byte is in `'A'..'Z'`, no promoted fields). -/
def asciiRuntime : Runtime where
  ToLower := asciiToLower
  ToLower_ascii := fun _ _ => rfl
  ToLower_eq_nil := fun s h => by simpa [asciiToLower] using h
  IsExported := fun name =>
    match name with
    | c :: _ => decide (65 ≤ c.val ∧ c.val ≤ 90)
    | [] => false
  IsExported_ascii := fun _ _ _ => rfl
  promoted := fun _ _ => Lookup.notFound
  promoted_no_match := fun _ _ _ => rfl

/-- An instance of the library functions for the concrete examples (the
theorems hold for every instance): `asciiRuntime`, `%T` gives the type name of
the built-in types, `%v` the text of a string, `net.IP.String` the bytes in
dotted decimal (the text of a 4-byte address), and no value has the
capabilities of `cli.Generic` or `Genericer`. -/
def exampleLib : Lib where
  toRuntime := asciiRuntime
  fmtT := fun val =>
    match val with
    | GoValue.int _ => str "int"
    | GoValue.duration _ => str "time.Duration"
    | GoValue.float64 _ => str "float64"
    | GoValue.string _ => str "string"
    | GoValue.bool _ => str "bool"
    | GoValue.stringSlice _ => str "[]string"
    | GoValue.intSlice _ => str "[]int"
    | GoValue.ip _ => str "net.IP"
    | GoValue.other typeName _ => typeName
    | _ => []
  fmtV := fun val =>
    match val with
    | GoValue.string s => s
    | GoValue.other _ repr => repr
    | _ => []
  ipString := fun a => str (".".intercalate (a.map (fun b => toString b)))
  isGeneric := fun _ => false
  genericer := fun _ => none

/-- A second instance of the library functions for the examples of `Generic`:
a value of the type `Flag` or `Both` satisfies `cli.Generic`, a value of the
type `Maker` or `Both` has the method `Generic()`, which returns a `Flag`. -/
def genericLib : Lib where
  toRuntime := asciiRuntime
  fmtT := exampleLib.fmtT
  fmtV := exampleLib.fmtV
  ipString := exampleLib.ipString
  isGeneric := fun val =>
    match val with
    | GoValue.other typeName _ => typeName == str "Flag" || typeName == str "Both"
    | _ => false
  genericer := fun val =>
    match val with
    | GoValue.other typeName repr =>
      if typeName == str "Maker" || typeName == str "Both" then
        some (some (GoValue.other (str "Flag") repr))
      else none
    | _ => none

/-- The chain of nested records of a key spelled in segments:
`NestedPath R v segs val` holds when each segment but the last has exactly one
field of the current record matching it (lower-cased), that field is exported
or embedded and holds the next record (directly or behind one pointer), no
field of the current record matches a longer dash-boundary prefix of the
remaining key, and the last segment has exactly one matching field, which is
exported and holds `val` (one pointer removed). -/
inductive NestedPath (R : Runtime) : Fields → List GoString → GoValue → Prop where
  | leaf (v : Fields) (s : GoString) (fd : Field GoValue) (val : GoValue)
      (huniq : v.filter (fun f => R.ToLower s == R.ToLower f.name) = [fd])
      (hexp : R.IsExported fd.name = true)
      (hval : Indirect fd.value = some val) : NestedPath R v [s] val
  | step (v v1 : Fields) (s t : GoString) (rest : List GoString) (fd : Field GoValue)
      (val : GoValue)
      (huniq : v.filter (fun f => R.ToLower s == R.ToLower f.name) = [fd])
      (hexp : R.IsExported fd.name = true ∨ fd.embedded = true)
      (hrec : Indirect fd.value = some (GoValue.struct v1))
      (hlonger : ∀ j : Nat, j ≤ (joinDash (s :: t :: rest)).length → s.length < j →
        (j = (joinDash (s :: t :: rest)).length ∨ (joinDash (s :: t :: rest))[j]? = some dash) →
        noFieldMatches R v (R.ToLower (ReplaceDash ((joinDash (s :: t :: rest)).take j))))
      (hnext : NestedPath R v1 (t :: rest) val) : NestedPath R v (s :: t :: rest) val

/-- A result of the inner loop with the key of a descent lower-cased. -/
def Scan.caseFolded : Scan → Scan
  | Scan.recurse ro v key => Scan.recurse ro v (asciiToLower key)
  | s => s

/-- A panic with the key of its message lower-cased. -/
def Panic.caseFolded : Panic → Panic
  | Panic.couldNotFindKey key => Panic.couldNotFindKey (asciiToLower key)
  | p => p

/-- The number of times `continue RECURSE` runs in the outer loop of
`getField`, counted along `getFieldLoop`. -/
def descentsLoop (R : Runtime) : Nat → Bool → Fields → GoString → Nat
  | 0, _, _, _ => 0
  | fuel + 1, ro, v, key =>
    match scanPrefixes R ro v key (key.length + 2) key.length with
    | Scan.recurse ro1 v1 key1 => descentsLoop R fuel ro1 v1 key1 + 1
    | _ => 0

/-- The number of descents into a nested record in one run of `getField`. -/
def descents (R : Runtime) (ro : Bool) (v : Fields) (key : GoString) : Nat :=
  descentsLoop R (key.length + 1) ro v key

/-- The header of the inner loop of `getField` alone (line 39): the values that
`i` takes, in order, when the body ends in `continue` every time. -/
def prefixIndices (key : GoString) : Nat → ℤ → List ℤ
  | 0, _ => []
  | fuel + 1, i =>
    if i == -1 then []
    else i :: prefixIndices key fuel (LastIndexDash (key.take i.toNat))

/-- The body of the inner loop of `getField` alone (lines 40-65) at index `i`:
`none` when it ends in `continue`, else how it leaves the loop. -/
def loopBody (R : Runtime) (ro : Bool) (v : Fields) (key : GoString) (i : ℤ) : Option Scan :=
  let test := R.ToLower (ReplaceDash (key.take i.toNat))
  match FieldByNameFunc R v (fun name => test == R.ToLower name) with
  | Lookup.nilEmbedded => some (Scan.abort Panic.nilEmbeddedPointer)
  | Lookup.notFound => none
  | Lookup.found fd =>
    match Indirect fd.value with
    | none =>
      if i == key.length then some (Scan.abort Panic.interfaceOnZeroValue)
      else some (Scan.abort Panic.typeOnZeroValue)
    | some f =>
      if i == key.length then
        if ro || !R.IsExported fd.name then some (Scan.abort Panic.interfaceOnUnexported)
        else some (Scan.found (Interface f))
      else
        match structFields f with
        | some fields =>
          if test.length + 1 ≤ key.length then
            some (Scan.recurse (ro || (!R.IsExported fd.name && !fd.embedded)) fields
              (key.drop (test.length + 1)))
          else some (Scan.abort Panic.sliceBoundsOutOfRange)
        | none => none

/-- The body run at the indices of a list in order, up to the first index at
which it does not end in `continue`. -/
def firstOutcome (R : Runtime) (ro : Bool) (v : Fields) (key : GoString) : List ℤ → Scan
  | [] => Scan.exhausted
  | i :: rest =>
    match loopBody R ro v key i with
    | some r => r
    | none => firstOutcome R ro v key rest

/-- The positions of the `-` characters of `key` below `n`, from the rightmost to
the leftmost. -/
def dashesBelow (key : GoString) : Nat → List ℤ
  | 0 => []
  | n + 1 => if key[n]? == some dash then (n : ℤ) :: dashesBelow key n else dashesBelow key n

/-! ## Lemmas on the string functions -/

theorem LastIndexDash_ge (s : GoString) : -1 ≤ LastIndexDash s := by
  induction s with
  | nil => simp [LastIndexDash]
  | cons c cs ih =>
    simp only [LastIndexDash]
    split_ifs <;> omega

theorem LastIndexDash_lt (s : GoString) : LastIndexDash s < s.length := by
  induction s with
  | nil => simp [LastIndexDash]
  | cons c cs ih =>
    simp only [LastIndexDash, List.length_cons]
    split_ifs <;> push_cast <;> omega

theorem LastIndexDash_dash (s : GoString) (h : LastIndexDash s ≠ -1) :
    s[(LastIndexDash s).toNat]? = some dash := by
  induction s with
  | nil => simp [LastIndexDash] at h
  | cons c cs ih =>
    simp only [LastIndexDash] at h ⊢
    have hge := LastIndexDash_ge cs
    split_ifs with h1 h2
    · have h1' : LastIndexDash cs ≠ -1 := by simpa using h1
      have : (LastIndexDash cs + 1).toNat = (LastIndexDash cs).toNat + 1 := by omega
      rw [this]
      simpa using ih h1'
    · simp at h2; simp [h2]
    · simp [h1, h2] at h

theorem LastIndexDash_max (s : GoString) (k : Nat) (hk : LastIndexDash s < k) :
    s[k]? ≠ some dash := by
  induction s generalizing k with
  | nil => simp
  | cons c cs ih =>
    simp only [LastIndexDash] at hk
    have hge := LastIndexDash_ge cs
    split_ifs at hk with h1 h2
    · cases k with
      | zero => omega
      | succ k => simpa using ih k (by omega)
    · cases k with
      | zero => omega
      | succ k =>
        have h1' : LastIndexDash cs = -1 := by simpa using h1
        simpa using ih k (by omega)
    · have h1' : LastIndexDash cs = -1 := by simpa using h1
      cases k with
      | zero => simpa using h2
      | succ k => simpa using ih k (by omega)

theorem getElem?_take_dash (key : GoString) (n m : Nat) (h : (key.take n)[m]? = some dash) :
    key[m]? = some dash ∧ m < n := by
  by_cases hm : m < n
  · rw [List.getElem?_take, if_pos hm] at h
    exact ⟨h, hm⟩
  · have : (key.take n).length ≤ m := by
      have := List.length_take_le n key
      omega
    rw [List.getElem?_eq_none this] at h
    cases h

theorem LastIndexDash_append_singleton (l : GoString) (c : Byte) :
    LastIndexDash (l ++ [c]) = if c == dash then (l.length : ℤ) else LastIndexDash l := by
  induction l with
  | nil => simp [LastIndexDash]
  | cons a l ih =>
    rw [List.cons_append, LastIndexDash, ih]
    by_cases hc : c = dash
    · have : ¬ ((l.length : ℤ) = -1) := by omega
      simp [hc, this]
    · simp [hc, LastIndexDash]

theorem LastIndexDash_take_succ (key : GoString) (n : Nat) (hn : n < key.length) :
    LastIndexDash (key.take (n + 1))
      = if key[n]? == some dash then (n : ℤ) else LastIndexDash (key.take n) := by
  have h1 : key.take (n + 1) = key.take n ++ [key[n]] := by
    rw [List.take_succ, List.getElem?_eq_getElem hn]; rfl
  rw [h1, LastIndexDash_append_singleton, List.getElem?_eq_getElem hn]
  have hl : (key.take n).length = n := by
    rw [List.length_take]; omega
  simp [hl]

theorem dashesBelow_split (key : GoString) (p : Nat) (hd : key[p]? = some dash) :
    ∀ n : Nat, p < n →
      ∃ pre, dashesBelow key n = pre ++ (p : ℤ) :: dashesBelow key p ∧
        ∀ x ∈ pre, (p : ℤ) < x := by
  intro n
  induction n with
  | zero => intro h; omega
  | succ n ih =>
    intro h
    by_cases hpn : p = n
    · subst hpn
      exact ⟨[], by simp [dashesBelow, hd], by simp⟩
    · obtain ⟨pre, h1, h2⟩ := ih (by omega)
      by_cases hn : key[n]? = some dash
      · refine ⟨(n : ℤ) :: pre, by simp [dashesBelow, hn, h1], ?_⟩
        intro x hx
        simp only [List.mem_cons] at hx
        rcases hx with hx | hx
        · omega
        · exact h2 x hx
      · have hn' : (key[n]? == some dash) = false := by simpa using hn
        exact ⟨pre, by simp [dashesBelow, hn', h1], h2⟩

theorem mem_dashesBelow (key : GoString) (p n : Nat) (hp : p < n) (hd : key[p]? = some dash) :
    (p : ℤ) ∈ dashesBelow key n := by
  obtain ⟨pre, h1, _⟩ := dashesBelow_split key p hd n hp
  rw [h1]
  simp

theorem prefixIndices_dashes (key : GoString) :
    ∀ (n : Nat), n ≤ key.length → ∀ fuel : Nat, n + 1 ≤ fuel →
      prefixIndices key fuel (LastIndexDash (key.take n)) = dashesBelow key n := by
  intro n
  induction n with
  | zero =>
    intro _ fuel hf
    obtain ⟨fuel, rfl⟩ : ∃ m, fuel = m + 1 := ⟨fuel - 1, by omega⟩
    simp [prefixIndices, LastIndexDash, dashesBelow]
  | succ n ih =>
    intro hn fuel hf
    obtain ⟨fuel, rfl⟩ : ∃ m, fuel = m + 1 := ⟨fuel - 1, by omega⟩
    rw [LastIndexDash_take_succ key n (by omega)]
    simp only [dashesBelow]
    by_cases hd : key[n]? = some dash
    · have hne : ¬ ((n : ℤ) = -1) := by omega
      simp only [hd, beq_self_eq_true, if_true, prefixIndices, beq_iff_eq, hne, if_false,
        Int.toNat_ofNat]
      rw [ih (by omega) fuel (by omega)]
    · have hd' : (key[n]? == some dash) = false := by simpa using hd
      simp only [hd', Bool.false_eq_true, if_false]
      exact ih (by omega) (fuel + 1) (by omega)

theorem prefixIndices_eq (key : GoString) :
    prefixIndices key (key.length + 2) key.length
      = (key.length : ℤ) :: dashesBelow key key.length := by
  have hne : ¬ ((key.length : ℤ) = -1) := by omega
  have h := prefixIndices_dashes key key.length le_rfl (key.length + 1) le_rfl
  rw [prefixIndices]
  simp only [beq_iff_eq, hne, if_false, Int.toNat_ofNat]
  rw [h]

theorem ReplaceDash_length_le (s : GoString) : (ReplaceDash s).length ≤ s.length := by
  simp only [ReplaceDash]
  exact List.length_filter_le _ _

theorem ReplaceDash_of_not_mem (s : GoString) (h : dash ∉ s) : ReplaceDash s = s := by
  simp only [ReplaceDash, List.filter_eq_self]
  intro c hc
  have : c ≠ dash := fun e => h (e ▸ hc)
  simpa using this

theorem dash_mem_take_test (l : GoString) :
    ∀ p : Nat, l[p]? = some dash → dash ∈ l.take ((ReplaceDash (l.take p)).length + 1) := by
  induction l with
  | nil => intro p h; simp at h
  | cons c cs ih =>
    intro p h
    cases p with
    | zero =>
      simp at h
      simp [ReplaceDash, h]
    | succ p =>
      simp only [List.getElem?_cons_succ] at h
      have := ih p h
      by_cases hc : c = dash
      · simp [hc]
      · have hf : ReplaceDash (List.take (p + 1) (c :: cs)) = c :: ReplaceDash (List.take p cs) := by
          simp [ReplaceDash, List.take_succ_cons, List.filter_cons, hc]
        rw [hf]
        simp only [List.length_cons, List.take_succ_cons, List.mem_cons]
        exact Or.inr this

theorem isASCII_take (s : GoString) (n : Nat) (h : isASCII s = true) :
    isASCII (s.take n) = true := by
  simp only [isASCII, List.all_eq_true] at h ⊢
  exact fun c hc => h c (List.mem_of_mem_take hc)

theorem isASCII_drop (s : GoString) (n : Nat) (h : isASCII s = true) :
    isASCII (s.drop n) = true := by
  simp only [isASCII, List.all_eq_true] at h ⊢
  exact fun c hc => h c (List.mem_of_mem_drop hc)

theorem isASCII_ReplaceDash (s : GoString) (h : isASCII s = true) :
    isASCII (ReplaceDash s) = true := by
  simp only [isASCII, List.all_eq_true, ReplaceDash] at h ⊢
  exact fun c hc => h c (List.mem_of_mem_filter hc)

theorem asciiToLower_length (s : GoString) : (asciiToLower s).length = s.length := by
  simp [asciiToLower]

theorem lowerByte_eq_dash (c : Byte) : (lowerByte c == dash) = (c == dash) := by
  by_cases h : 65 ≤ c.val ∧ c.val ≤ 90
  · have h1 : c ≠ dash := by
      intro e
      rw [e] at h
      have : (dash : Byte).val = 45 := rfl
      omega
    have h2 : lowerByte c ≠ dash := by
      intro e
      have hv := congrArg Fin.val e
      simp only [lowerByte, h, and_self, if_true, byte] at hv
      have : (dash : Byte).val = 45 := rfl
      omega
    simp [h1, h2]
  · have : lowerByte c = c := by
      simp only [lowerByte, h, if_false]
    rw [this]

theorem asciiToLower_ReplaceDash (s : GoString) :
    asciiToLower (ReplaceDash s) = ReplaceDash (asciiToLower s) := by
  induction s with
  | nil => rfl
  | cons c cs ih =>
    simp only [asciiToLower, ReplaceDash, List.map_cons] at ih ⊢
    have hc : (lowerByte c != dash) = (c != dash) := by
      simp only [bne, lowerByte_eq_dash]
    simp only [List.filter_cons, hc]
    split_ifs <;> simp [ih]

theorem LastIndexDash_asciiToLower (s : GoString) :
    LastIndexDash (asciiToLower s) = LastIndexDash s := by
  induction s with
  | nil => rfl
  | cons c cs ih =>
    simp only [asciiToLower, List.map_cons] at ih ⊢
    simp only [LastIndexDash, ih, lowerByte_eq_dash]

theorem asciiToLower_take (s : GoString) (n : Nat) :
    asciiToLower (s.take n) = (asciiToLower s).take n := by
  simp [asciiToLower, List.map_take]

theorem asciiToLower_drop (s : GoString) (n : Nat) :
    asciiToLower (s.drop n) = (asciiToLower s).drop n := by
  simp [asciiToLower, List.map_drop]

theorem test_ascii (R : Runtime) (key : GoString) (h : isASCII key = true) (n : Nat) :
    R.ToLower (ReplaceDash (key.take n)) = asciiToLower (ReplaceDash (key.take n)) :=
  R.ToLower_ascii _ (isASCII_ReplaceDash _ (isASCII_take key n h))

theorem test_length_le (R : Runtime) (key : GoString) (h : isASCII key = true) (p : Nat) :
    (R.ToLower (ReplaceDash (key.take p))).length ≤ p := by
  have h1 := ReplaceDash_length_le (key.take p)
  have h2 := List.length_take_le p key
  rw [test_ascii R key h, asciiToLower_length]
  omega

theorem test_length_eq (R : Runtime) (key : GoString) (h : isASCII key = true) (p : Nat) :
    (R.ToLower (ReplaceDash (key.take p))).length = (ReplaceDash (key.take p)).length := by
  rw [test_ascii R key h, asciiToLower_length]

/-! ## Lemmas on the two loops -/

theorem scanPrefixes_fuel (R : Runtime) (ro : Bool) (v : Fields) (key : GoString) :
    ∀ (a b : Nat) (i : ℤ), -1 ≤ i → i + 2 ≤ a → i + 2 ≤ b →
      scanPrefixes R ro v key a i = scanPrefixes R ro v key b i := by
  intro a
  induction a with
  | zero => intro b i h1 h2 _; omega
  | succ a ih =>
    intro b i h1 h2 h3
    cases b with
    | zero => omega
    | succ b =>
      have hj := LastIndexDash_lt (key.take i.toNat)
      have hj1 := LastIndexDash_ge (key.take i.toNat)
      have hlen : (key.take i.toNat).length ≤ i.toNat := by simp
      by_cases hi : i = -1
      · simp [scanPrefixes, hi]
      · have hrec := ih b (LastIndexDash (key.take i.toNat)) hj1 (by omega) (by omega)
        simp only [scanPrefixes, hrec]

theorem scanPrefixes_continue (R : Runtime) (ro : Bool) (v : Fields) (key : GoString)
    (j fuel : Nat) (h : continuesAt R v key j) :
    scanPrefixes R ro v key (fuel + 1) j
      = scanPrefixes R ro v key fuel (LastIndexDash (key.take j)) := by
  have hne : ¬ ((j : ℤ) = -1) := by omega
  rcases h with h | ⟨hj, fd, g, hf, hg, hs⟩
  · simp [scanPrefixes, hne, h]
  · have hne2 : ¬ ((j : ℤ) = (key.length : ℤ)) := by omega
    simp [scanPrefixes, hne, hf, hg, hs, hne2]

theorem scanPrefixes_skip_to (R : Runtime) (ro : Bool) (v : Fields) (key : GoString) (q : ℤ)
    (hq : q = -1 ∨ (0 ≤ q ∧ key[q.toNat]? = some dash))
    (hcont : ∀ j : Nat, q < j → j ≤ key.length → (j = key.length ∨ key[j]? = some dash) →
      continuesAt R v key j) :
    ∀ (fuel : Nat) (i : ℤ), q ≤ i → i ≤ key.length →
      (i = q ∨ i = key.length ∨ key[i.toNat]? = some dash) → i + 2 ≤ fuel →
      scanPrefixes R ro v key fuel i = scanPrefixes R ro v key fuel q := by
  intro fuel
  induction fuel with
  | zero => intro i h1 _ _ h4; rcases hq with hq | ⟨hq, _⟩ <;> omega
  | succ fuel ih =>
    intro i h1 h2 h3 h4
    by_cases hiq : i = q
    · rw [hiq]
    · have hq1 : -1 ≤ q := by rcases hq with hq | ⟨hq, _⟩ <;> omega
      obtain ⟨n, rfl⟩ : ∃ n : Nat, i = n := ⟨i.toNat, by omega⟩
      have hb : n = key.length ∨ key[n]? = some dash := by
        rcases h3 with h | h | h
        · exact absurd h hiq
        · left; exact_mod_cast h
        · right; simpa using h
      have hc := hcont n (by omega) (by exact_mod_cast h2) hb
      rw [scanPrefixes_continue R ro v key n fuel hc]
      have hj1 := LastIndexDash_ge (key.take n)
      have hj2 := LastIndexDash_lt (key.take n)
      have hlen : (key.take n).length ≤ n := List.length_take_le n key
      have hqj : q ≤ LastIndexDash (key.take n) := by
        rcases hq with hq | ⟨hq0, hqd⟩
        · omega
        · by_contra hlt
          have hlt' : LastIndexDash (key.take n) < (q.toNat : ℤ) := by omega
          apply LastIndexDash_max (key.take n) q.toNat hlt'
          rw [List.getElem?_take, if_pos (by omega)]
          exact hqd
      have hjb : LastIndexDash (key.take n) = q ∨ LastIndexDash (key.take n) = key.length ∨
          key[(LastIndexDash (key.take n)).toNat]? = some dash := by
        by_cases hj : LastIndexDash (key.take n) = -1
        · left; omega
        · right; right
          exact (getElem?_take_dash key n _ (LastIndexDash_dash (key.take n) hj)).1
      rw [ih (LastIndexDash (key.take n)) hqj (by omega) hjb (by omega)]
      exact scanPrefixes_fuel R ro v key fuel (fuel + 1) q hq1 (by omega) (by omega)

theorem scanPrefixes_reach (R : Runtime) (ro : Bool) (v : Fields) (key : GoString) (p : Nat)
    (hp : p ≤ key.length) (hb : p = key.length ∨ key[p]? = some dash)
    (hcont : ∀ j : Nat, p < j → j ≤ key.length → (j = key.length ∨ key[j]? = some dash) →
      continuesAt R v key j) :
    scanPrefixes R ro v key (key.length + 2) key.length
      = scanPrefixes R ro v key (key.length + 2) p := by
  rcases hb with hb | hb
  · rw [hb]
  · exact scanPrefixes_skip_to R ro v key (p : ℤ) (Or.inr ⟨by omega, by simpa using hb⟩)
      (fun j hj => hcont j (by exact_mod_cast hj)) (key.length + 2) key.length
      (by exact_mod_cast hp) le_rfl (Or.inr (Or.inl rfl)) (by push_cast; omega)

theorem scanPrefixes_recurse_length (R : Runtime) (ro : Bool) (v : Fields) (key : GoString) :
    ∀ (fuel : Nat) (i : ℤ) (ro1 : Bool) (v1 : Fields) (key1 : GoString),
      scanPrefixes R ro v key fuel i = Scan.recurse ro1 v1 key1 →
      key1.length < key.length := by
  intro fuel
  induction fuel with
  | zero => intro i ro1 v1 key1 h; simp [scanPrefixes] at h
  | succ fuel ih =>
    intro i ro1 v1 key1 h
    have hlen : (R.ToLower (ReplaceDash (key.take i.toNat))).length + 1 ≤ key.length →
        (key.drop ((R.ToLower (ReplaceDash (key.take i.toNat))).length + 1)).length
          < key.length := by
      intro h3
      simp only [List.length_drop]
      omega
    by_cases h1 : i = -1
    · simp [scanPrefixes, h1] at h
    · cases hF : FieldByNameFunc R v
          (fun name => R.ToLower (ReplaceDash (key.take i.toNat)) == R.ToLower name) with
      | nilEmbedded =>
        simp only [scanPrefixes, hF, beq_iff_eq, h1, if_false] at h
        cases h
      | notFound =>
        simp only [scanPrefixes, hF, beq_iff_eq, h1, if_false] at h
        exact ih _ _ _ _ h
      | found fd =>
        cases hI : Indirect fd.value with
        | none =>
          simp only [scanPrefixes, hF, hI, beq_iff_eq, h1, if_false] at h
          split_ifs at h
        | some g =>
          cases hS : structFields g with
          | none =>
            simp only [scanPrefixes, hF, hI, hS, beq_iff_eq, h1, if_false] at h
            split_ifs at h
            exact ih _ _ _ _ h
          | some fields =>
            simp only [scanPrefixes, hF, hI, hS, beq_iff_eq, h1, if_false] at h
            split_ifs at h with h2 h3 h4
            simp only [Scan.recurse.injEq] at h
            rw [← h.2.2]
            exact hlen h4

theorem getFieldLoop_fuel (R : Runtime) :
    ∀ (a b : Nat) (ro : Bool) (v : Fields) (key : GoString),
      key.length + 1 ≤ a → key.length + 1 ≤ b →
      getFieldLoop R a ro v key = getFieldLoop R b ro v key := by
  intro a
  induction a with
  | zero => intro b ro v key h; omega
  | succ a ih =>
    intro b ro v key ha hb
    cases b with
    | zero => omega
    | succ b =>
      simp only [getFieldLoop]
      cases hs : scanPrefixes R ro v key (key.length + 2) key.length with
      | found val => rfl
      | recurse ro1 v1 key1 =>
        have := scanPrefixes_recurse_length R ro v key _ _ _ _ _ hs
        exact ih b ro1 v1 key1 (by omega) (by omega)
      | abort p => rfl
      | exhausted => rfl

theorem getField_of_recurse (R : Runtime) (ro ro1 : Bool) (v v1 : Fields)
    (key key1 : GoString)
    (h : scanPrefixes R ro v key (key.length + 2) key.length = Scan.recurse ro1 v1 key1) :
    getField R ro v key = getField R ro1 v1 key1 := by
  have hl := scanPrefixes_recurse_length R ro v key _ _ _ _ _ h
  simp only [getField, getFieldLoop, h]
  exact getFieldLoop_fuel R key.length (key1.length + 1) ro1 v1 key1 (by omega) (by omega)

theorem FieldByNameFunc_unique (R : Runtime) (v : Fields) (m : GoString → Bool)
    (fd : Field GoValue) (h : v.filter (fun f => m f.name) = [fd]) :
    FieldByNameFunc R v m = Lookup.found fd := by
  simp [FieldByNameFunc, h]

theorem FieldByNameFunc_no_match (R : Runtime) (v : Fields) (test : GoString)
    (h : noFieldMatches R v test) :
    FieldByNameFunc R v (fun name => test == R.ToLower name) = Lookup.notFound := by
  have hnil : v.filter (fun f => test == R.ToLower f.name) = [] := by
    simp only [List.filter_eq_nil_iff]
    intro f hf
    have := h.1 f hf
    simp only [beq_iff_eq]
    exact fun e => this e.symm
  simp only [FieldByNameFunc, hnil]
  by_cases he : v.any (fun f => f.embedded) = true
  · have h2 := h.2 he
    simp only [he, if_true]
    cases hp : R.promoted v (fun name => test == R.ToLower name) with
    | notFound => rfl
    | found fd => simp [hp, Lookup.isNotFound] at h2
    | nilEmbedded => simp [hp, Lookup.isNotFound] at h2
  · simp [he]

theorem continuesAt_of_no_match (R : Runtime) (v : Fields) (key : GoString) (j : Nat)
    (h : noFieldMatches R v (R.ToLower (ReplaceDash (key.take j)))) :
    continuesAt R v key j :=
  Or.inl (FieldByNameFunc_no_match R v _ h)

theorem scanPrefixes_full (R : Runtime) (v : Fields) (key : GoString) (fd : Field GoValue)
    (val : GoValue)
    (hF : FieldByNameFunc R v
      (fun name => R.ToLower (ReplaceDash key) == R.ToLower name) = Lookup.found fd)
    (hexp : R.IsExported fd.name = true)
    (hval : Indirect fd.value = some val) (fuel : Nat) :
    scanPrefixes R false v key (fuel + 1) key.length = Scan.found (Interface val) := by
  have hne : ¬ ((key.length : ℤ) = -1) := by omega
  simp [scanPrefixes, hF, hval, hne, hexp]

theorem scanPrefixes_full_unexported (R : Runtime) (ro : Bool) (v : Fields) (key : GoString)
    (fd : Field GoValue) (val : GoValue)
    (hF : FieldByNameFunc R v
      (fun name => R.ToLower (ReplaceDash key) == R.ToLower name) = Lookup.found fd)
    (hexp : (ro || !R.IsExported fd.name) = true)
    (hval : Indirect fd.value = some val) (fuel : Nat) :
    scanPrefixes R ro v key (fuel + 1) key.length
      = Scan.abort Panic.interfaceOnUnexported := by
  have hne : ¬ ((key.length : ℤ) = -1) := by omega
  simp only [scanPrefixes, beq_iff_eq, hne, if_false, Int.toNat_ofNat, List.take_length, hF,
    hval, if_true, hexp]

theorem scanPrefixes_partial_struct (R : Runtime) (ro : Bool) (v v1 : Fields)
    (key : GoString) (p fuel : Nat) (fd : Field GoValue) (hp : p < key.length)
    (hF : FieldByNameFunc R v
      (fun name => R.ToLower (ReplaceDash (key.take p)) == R.ToLower name) = Lookup.found fd)
    (hI : Indirect fd.value = some (GoValue.struct v1)) :
    scanPrefixes R ro v key (fuel + 1) p
      = if (R.ToLower (ReplaceDash (key.take p))).length + 1 ≤ key.length then
          Scan.recurse (ro || (!R.IsExported fd.name && !fd.embedded)) v1
            (key.drop ((R.ToLower (ReplaceDash (key.take p))).length + 1))
        else Scan.abort Panic.sliceBoundsOutOfRange := by
  have hne : ¬ ((p : ℤ) = -1) := by omega
  have hne2 : ¬ ((p : ℤ) = (key.length : ℤ)) := by omega
  simp [scanPrefixes, hne, hF, hI, hne2, structFields]

theorem getField_found (R : Runtime) (v : Fields) (key : GoString) (fd : Field GoValue)
    (val : GoValue)
    (hF : FieldByNameFunc R v
      (fun name => R.ToLower (ReplaceDash key) == R.ToLower name) = Lookup.found fd)
    (hexp : R.IsExported fd.name = true)
    (hval : Indirect fd.value = some val) :
    getField R false v key = Except.ok (Interface val, true) := by
  simp [getField, getFieldLoop, scanPrefixes_full R v key fd val hF hexp hval]

theorem getField_descend (R : Runtime) (ro : Bool) (v v1 : Fields) (key : GoString) (p : Nat)
    (fd : Field GoValue) (hp : p < key.length) (hdash : key[p]? = some dash)
    (hF : FieldByNameFunc R v
      (fun name => R.ToLower (ReplaceDash (key.take p)) == R.ToLower name) = Lookup.found fd)
    (hI : Indirect fd.value = some (GoValue.struct v1))
    (hb : (R.ToLower (ReplaceDash (key.take p))).length + 1 ≤ key.length)
    (hcont : ∀ j : Nat, p < j → j ≤ key.length → (j = key.length ∨ key[j]? = some dash) →
      continuesAt R v key j) :
    scanPrefixes R ro v key (key.length + 2) key.length
        = Scan.recurse (ro || (!R.IsExported fd.name && !fd.embedded)) v1
            (key.drop ((R.ToLower (ReplaceDash (key.take p))).length + 1)) ∧
    getField R ro v key
      = getField R (ro || (!R.IsExported fd.name && !fd.embedded)) v1
          (key.drop ((R.ToLower (ReplaceDash (key.take p))).length + 1)) := by
  have hs : scanPrefixes R ro v key (key.length + 2) key.length
        = Scan.recurse (ro || (!R.IsExported fd.name && !fd.embedded)) v1
            (key.drop ((R.ToLower (ReplaceDash (key.take p))).length + 1)) := by
    rw [scanPrefixes_reach R ro v key p (by omega) (Or.inr hdash) hcont,
      scanPrefixes_partial_struct R ro v v1 key p (key.length + 1) fd hp hF hI, if_pos hb]
  exact ⟨hs, getField_of_recurse R _ _ v v1 key _ hs⟩

theorem getField_exhausted (R : Runtime) (ro : Bool) (v : Fields) (key : GoString)
    (hcont : ∀ j : Nat, j ≤ key.length → (j = key.length ∨ key[j]? = some dash) →
      continuesAt R v key j) :
    getField R ro v key = Except.error (Panic.couldNotFindKey key) := by
  have hskip := scanPrefixes_skip_to R ro v key (-1) (Or.inl rfl)
    (fun j _ => hcont j) (key.length + 2) key.length
    (by omega) le_rfl (Or.inr (Or.inl rfl)) (by push_cast; omega)
  have hend : scanPrefixes R ro v key (key.length + 2) (-1) = Scan.exhausted := by
    simp [scanPrefixes]
  simp only [getField, getFieldLoop, hskip, hend]

theorem scanPrefixes_nil (R : Runtime) (ro : Bool) (v : Fields) (key : GoString)
    (p fuel : Nat) (fd : Field GoValue)
    (hF : FieldByNameFunc R v
      (fun name => R.ToLower (ReplaceDash (key.take p)) == R.ToLower name) = Lookup.found fd)
    (hI : Indirect fd.value = none) :
    scanPrefixes R ro v key (fuel + 1) p
      = Scan.abort (if p = key.length then Panic.interfaceOnZeroValue
          else Panic.typeOnZeroValue) := by
  have hne : ¬ ((p : ℤ) = -1) := by omega
  by_cases hp : p = key.length
  · subst hp
    rw [List.take_length] at hF
    simp [scanPrefixes, hne, hF, hI]
  · have hne2 : ¬ ((p : ℤ) = (key.length : ℤ)) := by omega
    simp [scanPrefixes, hne, hF, hI, hp, hne2]

theorem getField_abort_at (R : Runtime) (ro : Bool) (v : Fields) (key : GoString) (p : Nat)
    (fd : Field GoValue) (hp : p ≤ key.length) (hb : p = key.length ∨ key[p]? = some dash)
    (hF : FieldByNameFunc R v
      (fun name => R.ToLower (ReplaceDash (key.take p)) == R.ToLower name) = Lookup.found fd)
    (hI : Indirect fd.value = none)
    (hcont : ∀ j : Nat, p < j → j ≤ key.length → (j = key.length ∨ key[j]? = some dash) →
      continuesAt R v key j) :
    getField R ro v key
      = Except.error (if p = key.length then Panic.interfaceOnZeroValue
          else Panic.typeOnZeroValue) := by
  simp only [getField, getFieldLoop, scanPrefixes_reach R ro v key p hp hb hcont,
    scanPrefixes_nil R ro v key p (key.length + 1) fd hF hI]

theorem getFieldLoop_ok_true (R : Runtime) :
    ∀ (fuel : Nat) (ro : Bool) (v : Fields) (key : GoString) (r : GoValue × Bool),
      getFieldLoop R fuel ro v key = Except.ok r → r.2 = true := by
  intro fuel
  induction fuel with
  | zero => intro ro v key r h; simp [getFieldLoop] at h
  | succ fuel ih =>
    intro ro v key r h
    simp only [getFieldLoop] at h
    split at h
    · cases h; rfl
    · exact ih _ _ _ _ h
    · cases h
    · cases h

theorem get_ok_true (R : Runtime) (s : InputSource) (name : GoString) (r : GoValue × Bool)
    (h : s.get R name = Except.ok r) : r = (r.1, true) := by
  have := getFieldLoop_ok_true R _ _ _ _ _ h
  cases r
  simp_all

theorem map_get_forced {α : Type} (R : Runtime) (s : InputSource) (name : GoString)
    (g : GoValue × Bool → α) :
    (s.get R name).map g = (s.get R name).map (fun r => g (r.1, true)) := by
  cases h : s.get R name with
  | error p => rfl
  | ok r =>
    have hr := get_ok_true R s name r h
    simp only [Except.map]
    rw [← hr]

theorem suffix_couldNotConvert (L : Lib) (val : GoValue) (target name : GoString) :
    name <:+ couldNotConvert L val target name :=
  List.suffix_append _ _

theorem scanPrefixes_ne_outOfFuel (R : Runtime) (ro : Bool) (v : Fields) (key : GoString) :
    ∀ (fuel : Nat) (i : ℤ), -1 ≤ i → i + 2 ≤ fuel →
      scanPrefixes R ro v key fuel i ≠ Scan.abort Panic.outOfFuel := by
  intro fuel
  induction fuel with
  | zero => intro i h1 h2; omega
  | succ fuel ih =>
    intro i h1 h2
    have hj1 := LastIndexDash_ge (key.take i.toNat)
    have hj2 := LastIndexDash_lt (key.take i.toNat)
    have hlen : (key.take i.toNat).length ≤ i.toNat := List.length_take_le _ _
    by_cases hi : i = -1
    · simp [scanPrefixes, hi]
    · have hrec := ih (LastIndexDash (key.take i.toNat)) hj1 (by omega)
      cases hF : FieldByNameFunc R v
          (fun name => R.ToLower (ReplaceDash (key.take i.toNat)) == R.ToLower name) with
      | nilEmbedded =>
        simp [scanPrefixes, hF, hi]
      | notFound =>
        simp only [scanPrefixes, hF, beq_iff_eq, hi, if_false]
        exact hrec
      | found fd =>
        cases hI : Indirect fd.value with
        | none =>
          simp only [scanPrefixes, hF, hI, beq_iff_eq, hi, if_false]
          split_ifs <;> simp
        | some g =>
          cases hS : structFields g with
          | none =>
            simp only [scanPrefixes, hF, hI, hS, beq_iff_eq, hi, if_false]
            split_ifs
            · simp
            · simp
            · exact hrec
          | some fields =>
            simp only [scanPrefixes, hF, hI, hS, beq_iff_eq, hi, if_false]
            split_ifs <;> simp

theorem getFieldLoop_ne_outOfFuel (R : Runtime) :
    ∀ (fuel : Nat) (ro : Bool) (v : Fields) (key : GoString), key.length + 1 ≤ fuel →
      getFieldLoop R fuel ro v key ≠ Except.error Panic.outOfFuel := by
  intro fuel
  induction fuel with
  | zero => intro ro v key h; omega
  | succ fuel ih =>
    intro ro v key h
    simp only [getFieldLoop]
    cases hs : scanPrefixes R ro v key (key.length + 2) key.length with
    | found val => simp
    | recurse ro1 v1 key1 =>
      have := scanPrefixes_recurse_length R ro v key _ _ _ _ _ hs
      exact ih ro1 v1 key1 (by omega)
    | abort p =>
      have := scanPrefixes_ne_outOfFuel R ro v key (key.length + 2) key.length (by omega)
        (by push_cast; omega)
      intro hp
      simp only [Except.error.injEq] at hp
      rw [hs, hp] at this
      exact this rfl
    | exhausted => simp

theorem getField_ne_outOfFuel (R : Runtime) (ro : Bool) (v : Fields) (key : GoString) :
    getField R ro v key ≠ Except.error Panic.outOfFuel :=
  getFieldLoop_ne_outOfFuel R _ ro v key le_rfl

theorem test_eq_of_lower_eq (R : Runtime) (k1 k2 : GoString) (h1 : isASCII k1 = true)
    (h2 : isASCII k2 = true) (h : asciiToLower k1 = asciiToLower k2) (n : Nat) :
    R.ToLower (ReplaceDash (k1.take n)) = R.ToLower (ReplaceDash (k2.take n)) := by
  rw [test_ascii R k1 h1, test_ascii R k2 h2, asciiToLower_ReplaceDash,
    asciiToLower_ReplaceDash, asciiToLower_take, asciiToLower_take, h]

theorem LastIndexDash_take_of_lower_eq (k1 k2 : GoString)
    (h : asciiToLower k1 = asciiToLower k2) (n : Nat) :
    LastIndexDash (k1.take n) = LastIndexDash (k2.take n) := by
  rw [← LastIndexDash_asciiToLower (k1.take n), ← LastIndexDash_asciiToLower (k2.take n),
    asciiToLower_take, asciiToLower_take, h]

theorem scanPrefixes_caseFolded (R : Runtime) (ro : Bool) (v : Fields) (k1 k2 : GoString)
    (h1 : isASCII k1 = true) (h2 : isASCII k2 = true)
    (h : asciiToLower k1 = asciiToLower k2) :
    ∀ (fuel : Nat) (i : ℤ),
      (scanPrefixes R ro v k1 fuel i).caseFolded = (scanPrefixes R ro v k2 fuel i).caseFolded := by
  have hlen : k1.length = k2.length := by
    have := congrArg List.length h
    simpa [asciiToLower] using this
  intro fuel
  induction fuel with
  | zero => intro i; rfl
  | succ fuel ih =>
    intro i
    have hT := test_eq_of_lower_eq R k1 k2 h1 h2 h i.toNat
    have hL := LastIndexDash_take_of_lower_eq k1 k2 h i.toNat
    have hrec := ih (LastIndexDash (k2.take i.toNat))
    by_cases hi : i = -1
    · simp [scanPrefixes, hi, Scan.caseFolded]
    · cases hF : FieldByNameFunc R v
          (fun name => R.ToLower (ReplaceDash (k2.take i.toNat)) == R.ToLower name) with
      | nilEmbedded =>
        simp only [scanPrefixes, hT, hL, hlen, hF, beq_iff_eq, hi, if_false]
      | notFound =>
        simp only [scanPrefixes, hT, hL, hlen, hF, beq_iff_eq, hi, if_false]
        exact hrec
      | found fd =>
        cases hI : Indirect fd.value with
        | none =>
          simp only [scanPrefixes, hT, hL, hlen, hF, hI, beq_iff_eq, hi, if_false]
        | some g =>
          cases hS : structFields g with
          | none =>
            simp only [scanPrefixes, hT, hL, hlen, hF, hI, hS, beq_iff_eq, hi, if_false]
            split_ifs
            · rfl
            · rfl
            · exact hrec
          | some fields =>
            simp only [scanPrefixes, hT, hL, hlen, hF, hI, hS, beq_iff_eq, hi, if_false]
            split_ifs
            · rfl
            · rfl
            · simp only [Scan.caseFolded, asciiToLower_drop, h]
            · rfl

theorem scanPrefixes_recurse_ascii (R : Runtime) (ro : Bool) (v : Fields) (key : GoString)
    (hk : isASCII key = true) :
    ∀ (fuel : Nat) (i : ℤ) (ro1 : Bool) (v1 : Fields) (key1 : GoString),
      scanPrefixes R ro v key fuel i = Scan.recurse ro1 v1 key1 → isASCII key1 = true := by
  intro fuel
  induction fuel with
  | zero => intro i ro1 v1 key1 h; simp [scanPrefixes] at h
  | succ fuel ih =>
    intro i ro1 v1 key1 h
    by_cases h1 : i = -1
    · simp [scanPrefixes, h1] at h
    · cases hF : FieldByNameFunc R v
          (fun name => R.ToLower (ReplaceDash (key.take i.toNat)) == R.ToLower name) with
      | nilEmbedded =>
        simp only [scanPrefixes, hF, beq_iff_eq, h1, if_false] at h
        cases h
      | notFound =>
        simp only [scanPrefixes, hF, beq_iff_eq, h1, if_false] at h
        exact ih _ _ _ _ h
      | found fd =>
        cases hI : Indirect fd.value with
        | none =>
          simp only [scanPrefixes, hF, hI, beq_iff_eq, h1, if_false] at h
          split_ifs at h
        | some g =>
          cases hS : structFields g with
          | none =>
            simp only [scanPrefixes, hF, hI, hS, beq_iff_eq, h1, if_false] at h
            split_ifs at h
            exact ih _ _ _ _ h
          | some fields =>
            simp only [scanPrefixes, hF, hI, hS, beq_iff_eq, h1, if_false] at h
            split_ifs at h with h2 h3 h4
            simp only [Scan.recurse.injEq] at h
            rw [← h.2.2]
            exact isASCII_drop key _ hk

theorem getFieldLoop_case_invariant (R : Runtime) :
    ∀ (fuel : Nat) (ro : Bool) (v : Fields) (k1 k2 : GoString),
      isASCII k1 = true → isASCII k2 = true → asciiToLower k1 = asciiToLower k2 →
      (∃ p1 p2, getFieldLoop R fuel ro v k1 = Except.error p1 ∧
        getFieldLoop R fuel ro v k2 = Except.error p2 ∧ p1.caseFolded = p2.caseFolded) ∨
      (∃ val, getFieldLoop R fuel ro v k1 = Except.ok (val, true) ∧
        getFieldLoop R fuel ro v k2 = Except.ok (val, true)) := by
  intro fuel
  induction fuel with
  | zero => intro ro v k1 k2 _ _ _; exact Or.inl ⟨_, _, rfl, rfl, rfl⟩
  | succ fuel ih =>
    intro ro v k1 k2 ha1 ha2 h
    have hlen : k1.length = k2.length := by
      have := congrArg List.length h
      simpa [asciiToLower] using this
    have hs := scanPrefixes_caseFolded R ro v k1 k2 ha1 ha2 h (k2.length + 2) k2.length
    have hr1 := scanPrefixes_recurse_ascii R ro v k1 ha1 (k2.length + 2) k2.length
    have hr2 := scanPrefixes_recurse_ascii R ro v k2 ha2 (k2.length + 2) k2.length
    simp only [getFieldLoop, hlen]
    cases h1 : scanPrefixes R ro v k1 (k2.length + 2) k2.length <;>
      cases h2 : scanPrefixes R ro v k2 (k2.length + 2) k2.length <;>
      simp only [h1, h2, Scan.caseFolded, Scan.found.injEq, Scan.recurse.injEq,
        Scan.abort.injEq, reduceCtorEq] at hs
    · subst hs
      exact Or.inr ⟨_, rfl, rfl⟩
    · obtain ⟨hro, hv, hk⟩ := hs
      subst hro
      subst hv
      exact ih _ _ _ _ (hr1 _ _ _ h1) (hr2 _ _ _ h2) hk
    · subst hs
      exact Or.inl ⟨_, _, rfl, rfl, rfl⟩
    · exact Or.inl ⟨_, _, rfl, rfl, by simp [Panic.caseFolded, h]⟩

theorem count_dash_drop_lt (R : Runtime) (key : GoString) (hk : isASCII key = true) (p : Nat)
    (h : key[p]? = some dash) :
    (key.drop ((R.ToLower (ReplaceDash (key.take p))).length + 1)).count dash
      < key.count dash := by
  rw [test_length_eq R key hk]
  have hmem := dash_mem_take_test key p h
  have hpos : 0 < (key.take ((ReplaceDash (key.take p)).length + 1)).count dash :=
    List.count_pos_iff.mpr hmem
  have hsplit := congrArg (List.count dash)
    (List.take_append_drop ((ReplaceDash (key.take p)).length + 1) key)
  rw [List.count_append] at hsplit
  omega

theorem scanPrefixes_recurse_spec (R : Runtime) (ro : Bool) (v : Fields) (key : GoString) :
    ∀ (fuel : Nat) (i : ℤ) (ro1 : Bool) (v1 : Fields) (key1 : GoString), -1 ≤ i →
      i ≤ key.length → (i = -1 ∨ i = key.length ∨ key[i.toNat]? = some dash) →
      scanPrefixes R ro v key fuel i = Scan.recurse ro1 v1 key1 →
      ∃ p : Nat, p < key.length ∧ key[p]? = some dash ∧
        key1 = key.drop ((R.ToLower (ReplaceDash (key.take p))).length + 1) := by
  intro fuel
  induction fuel with
  | zero => intro i ro1 v1 key1 _ _ _ h; simp [scanPrefixes] at h
  | succ fuel ih =>
    intro i ro1 v1 key1 h1 h2 hb h
    by_cases hi : i = -1
    · simp [scanPrefixes, hi] at h
    · have hj1 := LastIndexDash_ge (key.take i.toNat)
      have hj2 := LastIndexDash_lt (key.take i.toNat)
      have hlen : (key.take i.toNat).length ≤ i.toNat := List.length_take_le _ _
      have hjb : LastIndexDash (key.take i.toNat) = -1 ∨
          LastIndexDash (key.take i.toNat) = key.length ∨
          key[(LastIndexDash (key.take i.toNat)).toNat]? = some dash := by
        by_cases hj : LastIndexDash (key.take i.toNat) = -1
        · exact Or.inl hj
        · exact Or.inr (Or.inr
            (getElem?_take_dash key _ _ (LastIndexDash_dash (key.take i.toNat) hj)).1)
      have hrec := fun hh =>
        ih (LastIndexDash (key.take i.toNat)) ro1 v1 key1 hj1 (by omega) hjb hh
      cases hF : FieldByNameFunc R v
          (fun name => R.ToLower (ReplaceDash (key.take i.toNat)) == R.ToLower name) with
      | nilEmbedded =>
        simp only [scanPrefixes, hF, beq_iff_eq, hi, if_false] at h
        cases h
      | notFound =>
        simp only [scanPrefixes, hF, beq_iff_eq, hi, if_false] at h
        exact hrec h
      | found fd =>
        cases hI : Indirect fd.value with
        | none =>
          simp only [scanPrefixes, hF, hI, beq_iff_eq, hi, if_false] at h
          split_ifs at h
        | some g =>
          cases hS : structFields g with
          | none =>
            simp only [scanPrefixes, hF, hI, hS, beq_iff_eq, hi, if_false] at h
            split_ifs at h
            exact hrec h
          | some fields =>
            simp only [scanPrefixes, hF, hI, hS, beq_iff_eq, hi, if_false] at h
            split_ifs at h with h3 h4 h5
            simp only [Scan.recurse.injEq] at h
            refine ⟨i.toNat, by omega, ?_, h.2.2.symm⟩
            rcases hb with hb | hb | hb
            · exact absurd hb hi
            · exact absurd hb h3
            · exact hb

theorem scanPrefixes_ne_sliceBounds (R : Runtime) (ro : Bool) (v : Fields) (key : GoString)
    (hk : isASCII key = true) :
    ∀ (fuel : Nat) (i : ℤ), -1 ≤ i → i ≤ key.length →
      scanPrefixes R ro v key fuel i ≠ Scan.abort Panic.sliceBoundsOutOfRange := by
  intro fuel
  induction fuel with
  | zero => intro i _ _; simp [scanPrefixes]
  | succ fuel ih =>
    intro i h1 h2
    by_cases hi : i = -1
    · simp [scanPrefixes, hi]
    · have hj1 := LastIndexDash_ge (key.take i.toNat)
      have hj2 := LastIndexDash_lt (key.take i.toNat)
      have hlen : (key.take i.toNat).length ≤ i.toNat := List.length_take_le _ _
      have hrec := ih (LastIndexDash (key.take i.toNat)) hj1 (by omega)
      have ht := test_length_le R key hk i.toNat
      cases hF : FieldByNameFunc R v
          (fun name => R.ToLower (ReplaceDash (key.take i.toNat)) == R.ToLower name) with
      | nilEmbedded =>
        simp [scanPrefixes, hF, hi]
      | notFound =>
        simp only [scanPrefixes, hF, beq_iff_eq, hi, if_false]
        exact hrec
      | found fd =>
        cases hI : Indirect fd.value with
        | none =>
          simp only [scanPrefixes, hF, hI, beq_iff_eq, hi, if_false]
          split_ifs <;> simp
        | some g =>
          cases hS : structFields g with
          | none =>
            simp only [scanPrefixes, hF, hI, hS, beq_iff_eq, hi, if_false]
            split_ifs
            · simp
            · simp
            · exact hrec
          | some fields =>
            simp only [scanPrefixes, hF, hI, hS, beq_iff_eq, hi, if_false]
            split_ifs with h3 h4 h5
            · simp
            · simp
            · simp
            · omega

theorem getFieldLoop_ne_sliceBounds (R : Runtime) :
    ∀ (fuel : Nat) (ro : Bool) (v : Fields) (key : GoString), isASCII key = true →
      getFieldLoop R fuel ro v key ≠ Except.error Panic.sliceBoundsOutOfRange := by
  intro fuel
  induction fuel with
  | zero => intro ro v key _; simp [getFieldLoop]
  | succ fuel ih =>
    intro ro v key hk
    simp only [getFieldLoop]
    cases hs : scanPrefixes R ro v key (key.length + 2) key.length with
    | found val => simp
    | recurse ro1 v1 key1 =>
      exact ih ro1 v1 key1 (scanPrefixes_recurse_ascii R ro v key hk _ _ _ _ _ hs)
    | abort p =>
      have := scanPrefixes_ne_sliceBounds R ro v key hk (key.length + 2) key.length
        (by omega) le_rfl
      intro hp
      simp only [Except.error.injEq] at hp
      rw [hs, hp] at this
      exact this rfl
    | exhausted => simp

theorem descentsLoop_le (R : Runtime) :
    ∀ (fuel : Nat) (ro : Bool) (v : Fields) (key : GoString), isASCII key = true →
      descentsLoop R fuel ro v key ≤ key.count dash := by
  intro fuel
  induction fuel with
  | zero => intro ro v key _; simp [descentsLoop]
  | succ fuel ih =>
    intro ro v key hk
    simp only [descentsLoop]
    cases hs : scanPrefixes R ro v key (key.length + 2) key.length with
    | recurse ro1 v1 key1 =>
      obtain ⟨p, _, hd, hk1⟩ := scanPrefixes_recurse_spec R ro v key _ _ _ _ _ (by omega)
        le_rfl (Or.inr (Or.inl rfl)) hs
      have hlt := count_dash_drop_lt R key hk p hd
      have := ih ro1 v1 key1 (scanPrefixes_recurse_ascii R ro v key hk _ _ _ _ _ hs)
      simp only
      rw [hk1] at this ⊢
      omega
    | found val => simp
    | abort p => simp
    | exhausted => simp

theorem scanPrefixes_eq_firstOutcome (R : Runtime) (ro : Bool) (v : Fields) (key : GoString) :
    ∀ (fuel : Nat) (i : ℤ), -1 ≤ i → i + 2 ≤ fuel →
      scanPrefixes R ro v key fuel i
        = firstOutcome R ro v key (prefixIndices key fuel i) := by
  intro fuel
  induction fuel with
  | zero => intro i h1 h2; omega
  | succ fuel ih =>
    intro i h1 h2
    by_cases hi : i = -1
    · simp [scanPrefixes, prefixIndices, firstOutcome, hi]
    · have hj1 := LastIndexDash_ge (key.take i.toNat)
      have hj2 := LastIndexDash_lt (key.take i.toNat)
      have hlen : (key.take i.toNat).length ≤ i.toNat := List.length_take_le _ _
      have hrec := ih (LastIndexDash (key.take i.toNat)) hj1 (by omega)
      simp only [prefixIndices, beq_iff_eq, hi, if_false, firstOutcome, loopBody]
      cases hF : FieldByNameFunc R v
          (fun name => R.ToLower (ReplaceDash (key.take i.toNat)) == R.ToLower name) with
      | nilEmbedded =>
        simp only [scanPrefixes, hF, beq_iff_eq, hi, if_false]
      | notFound =>
        simp only [scanPrefixes, hF, beq_iff_eq, hi, if_false]
        exact hrec
      | found fd =>
        cases hI : Indirect fd.value with
        | none =>
          simp only [scanPrefixes, hF, hI, beq_iff_eq, hi, if_false]
          split_ifs <;> rfl
        | some g =>
          cases hS : structFields g with
          | none =>
            simp only [scanPrefixes, hF, hI, hS, beq_iff_eq, hi, if_false]
            split_ifs
            · rfl
            · rfl
            · exact hrec
          | some fields =>
            simp only [scanPrefixes, hF, hI, hS, beq_iff_eq, hi, if_false]
            split_ifs <;> rfl

theorem firstOutcome_decided (R : Runtime) (ro : Bool) (v : Fields) (key : GoString) (i : ℤ)
    (r : Scan) (h : loopBody R ro v key i = some r) (post : List ℤ) :
    ∀ pre : List ℤ,
      firstOutcome R ro v key (pre ++ i :: post) = firstOutcome R ro v key (pre ++ [i]) := by
  intro pre
  induction pre with
  | nil => simp [firstOutcome, h]
  | cons a pre ih =>
    simp only [List.cons_append, firstOutcome]
    cases loopBody R ro v key a with
    | none => exact ih
    | some r => rfl

theorem loopBody_partial_struct (R : Runtime) (ro : Bool) (v v1 : Fields) (key : GoString)
    (p : Nat) (fd : Field GoValue) (hp : p < key.length)
    (hF : FieldByNameFunc R v
      (fun name => R.ToLower (ReplaceDash (key.take p)) == R.ToLower name) = Lookup.found fd)
    (hI : Indirect fd.value = some (GoValue.struct v1)) :
    ∃ r, loopBody R ro v key p = some r := by
  have hne2 : ¬ ((p : ℤ) = (key.length : ℤ)) := by omega
  simp only [loopBody, Int.toNat_ofNat, hF, hI, beq_iff_eq, hne2, if_false, structFields]
  split_ifs <;> exact ⟨_, rfl⟩

theorem continuesAt_of_loopBody (R : Runtime) (ro : Bool) (v : Fields) (key : GoString)
    (j : Nat) (h : (loopBody R ro v key j).isNone = true) : continuesAt R v key j := by
  simp only [loopBody, Int.toNat_ofNat] at h
  cases hF : FieldByNameFunc R v
      (fun name => R.ToLower (ReplaceDash (key.take j)) == R.ToLower name) with
  | nilEmbedded => simp [hF] at h
  | notFound => exact Or.inl hF
  | found fd =>
    cases hI : Indirect fd.value with
    | none =>
      simp only [hF, hI] at h
      split_ifs at h <;> simp at h
    | some g =>
      cases hS : structFields g with
      | some fields =>
        simp only [hF, hI, hS] at h
        split_ifs at h <;> simp at h
      | none =>
        simp only [hF, hI, hS] at h
        split_ifs at h with h1 h2
        · simp at h
        · simp at h
        · refine Or.inr ⟨?_, fd, g, hF, hI, hS⟩
          intro hj
          apply h1
          simp [hj]

/-! ## The claims -/

/-- C1 as stated fails: the only field of the record is `foo`, its lower-cased
name equals the ASCII key `foo`, and it holds the integer 5, not a nil
pointer; yet `getField` does not return 5: the field is unexported and
`f.Interface()` on line 57 panics. -/
theorem getField_unexported_full_match_panics :
    [fld "foo" (GoValue.int 5)].filter
        (fun f => asciiRuntime.ToLower (ReplaceDash (str "foo")) == asciiRuntime.ToLower f.name)
      = [fld "foo" (GoValue.int 5)] ∧
    isASCII (str "foo") = true ∧
    getField asciiRuntime false [fld "foo" (GoValue.int 5)] (str "foo")
      = Except.error Panic.interfaceOnUnexported :=
  ⟨rfl, rfl, rfl⟩

/-- C1, amended. Full-key match wins: for a record that was not reached
through an unexported field and an ASCII key, when exactly one field of the
record has a lower-cased name equal to the key lower-cased with every `-`
removed, and that field is exported and not a nil pointer, `getField` returns
the value of that field, one pointer removed (for a field of interface type
the value it holds), with `found = true`, whatever the type of the field and
whatever the other fields of the record hold. -/
theorem getField_full_key_match (R : Runtime) (v : Fields) (key : GoString)
    (fd : Field GoValue) (val : GoValue)
    (_hascii : isASCII key = true)
    (huniq : v.filter (fun f => R.ToLower (ReplaceDash key) == R.ToLower f.name) = [fd])
    (hexp : R.IsExported fd.name = true)
    (hval : Indirect fd.value = some val) :
    getField R false v key = Except.ok (Interface val, true) :=
  getField_found R v key fd val
    (FieldByNameFunc_unique R v (fun n => R.ToLower (ReplaceDash key) == R.ToLower n) fd huniq)
    hexp hval

/-- C1, amended, at concrete inputs: the keys `FooBar`, `foo-bar` and `FOOBAR`
all return the value of the field `FooBar`, and the key `a-b-c` returns the
flat field `ABC` although `A.BC` and `AB.C` also spell it. -/
theorem getField_full_key_match_witness :
    getField asciiRuntime false [fld "FooBar" (GoValue.int 5)] (str "FooBar")
      = Except.ok (GoValue.int 5, true) ∧
    getField asciiRuntime false [fld "FooBar" (GoValue.int 5)] (str "foo-bar")
      = Except.ok (GoValue.int 5, true) ∧
    getField asciiRuntime false [fld "FooBar" (GoValue.int 5)] (str "FOOBAR")
      = Except.ok (GoValue.int 5, true) ∧
    getField asciiRuntime false
        [fld "A" (GoValue.struct [fld "BC" (GoValue.int 2)]),
         fld "AB" (GoValue.struct [fld "C" (GoValue.int 3)]),
         fld "ABC" (GoValue.ptr (GoValue.int 1))]
        (str "a-b-c")
      = Except.ok (GoValue.int 1, true) :=
  ⟨getField_full_key_match asciiRuntime [fld "FooBar" (GoValue.int 5)] (str "FooBar")
     (fld "FooBar" (GoValue.int 5)) (GoValue.int 5) rfl rfl rfl rfl,
   getField_full_key_match asciiRuntime [fld "FooBar" (GoValue.int 5)] (str "foo-bar")
     (fld "FooBar" (GoValue.int 5)) (GoValue.int 5) rfl rfl rfl rfl,
   getField_full_key_match asciiRuntime [fld "FooBar" (GoValue.int 5)] (str "FOOBAR")
     (fld "FooBar" (GoValue.int 5)) (GoValue.int 5) rfl rfl rfl rfl,
   getField_full_key_match asciiRuntime
     [fld "A" (GoValue.struct [fld "BC" (GoValue.int 2)]),
      fld "AB" (GoValue.struct [fld "C" (GoValue.int 3)]),
      fld "ABC" (GoValue.ptr (GoValue.int 1))]
     (str "a-b-c") (fld "ABC" (GoValue.ptr (GoValue.int 1))) (GoValue.int 1)
     rfl rfl rfl rfl⟩

/-- C2 as stated fails: the record field `B` is the only match of the segment
`b` and holds the record whose only field `c` is the only match of the segment
`c` and holds 7, and nothing matches the longer prefix `b-c` of the key; yet
`getField` does not return 7: the leaf is unexported and `f.Interface()`
panics.  It panics as well when the leaf `C` is exported and the record is
reached through the unexported field `b`. -/
theorem getField_unexported_chain_panics :
    [fld "B" (GoValue.struct [fld "c" (GoValue.int 7)])].filter
        (fun f => asciiRuntime.ToLower (str "b") == asciiRuntime.ToLower f.name)
      = [fld "B" (GoValue.struct [fld "c" (GoValue.int 7)])] ∧
    [fld "c" (GoValue.int 7)].filter
        (fun f => asciiRuntime.ToLower (str "c") == asciiRuntime.ToLower f.name)
      = [fld "c" (GoValue.int 7)] ∧
    (FieldByNameFunc asciiRuntime [fld "B" (GoValue.struct [fld "c" (GoValue.int 7)])]
        (fun name => asciiRuntime.ToLower (ReplaceDash (str "b-c"))
          == asciiRuntime.ToLower name)).isNotFound = true ∧
    getField asciiRuntime false [fld "B" (GoValue.struct [fld "c" (GoValue.int 7)])]
        (str "b-c")
      = Except.error Panic.interfaceOnUnexported ∧
    getField asciiRuntime false [fld "b" (GoValue.struct [fld "C" (GoValue.int 7)])]
        (str "b-c")
      = Except.error Panic.interfaceOnUnexported :=
  ⟨rfl, rfl, rfl, rfl, rfl⟩

/-- C2, amended. Nested resolution along dash-free segments: for a chain of
nested records spelled by dash-free ASCII segments `s1, ..., sn` (`n ≥ 2`),
where at each level exactly one field matches the segment, that field is
exported (or, on the way, embedded) and holds the next record (the last one
holds `val`), and no field matches a longer dash-boundary prefix of the
remaining key, `getField` on the key `s1-...-sn` returns `(val, true)`. -/
theorem getField_nested_path (R : Runtime) (v : Fields) (segs : List GoString)
    (val : GoValue)
    (hpath : NestedPath R v segs val)
    (_hlen : 2 ≤ segs.length)
    (hdash : ∀ s ∈ segs, dash ∉ s)
    (hascii : ∀ s ∈ segs, isASCII s = true) :
    getField R false v (joinDash segs) = Except.ok (Interface val, true) := by
  clear _hlen
  induction hpath with
  | leaf v s fd val huniq hexp hval =>
    have hs : ReplaceDash s = s := ReplaceDash_of_not_mem s (hdash s (by simp))
    apply getField_found R v s fd val _ hexp hval
    rw [hs]
    exact FieldByNameFunc_unique R v (fun n => R.ToLower s == R.ToLower n) fd huniq
  | step v v1 s t rest fd val huniq hexp hrec hlonger _ ih =>
    have hs : ReplaceDash s = s := ReplaceDash_of_not_mem s (hdash s (by simp))
    have hsa : isASCII s = true := hascii s (by simp)
    have hkey : joinDash (s :: t :: rest) = s ++ dash :: joinDash (t :: rest) := rfl
    have htake : (joinDash (s :: t :: rest)).take s.length = s := by
      rw [hkey]; simp
    have hp : s.length < (joinDash (s :: t :: rest)).length := by
      rw [hkey]; simp
    have hd : (joinDash (s :: t :: rest))[s.length]? = some dash := by
      rw [hkey, List.getElem?_append_right (le_refl _)]; simp
    have hF : FieldByNameFunc R v (fun name =>
        R.ToLower (ReplaceDash ((joinDash (s :: t :: rest)).take s.length)) == R.ToLower name)
          = Lookup.found fd := by
      rw [htake, hs]
      exact FieldByNameFunc_unique R v (fun n => R.ToLower s == R.ToLower n) fd huniq
    have hlen : (R.ToLower (ReplaceDash ((joinDash (s :: t :: rest)).take s.length))).length
        = s.length := by
      rw [htake, hs, R.ToLower_ascii s hsa, asciiToLower_length]
    have hro : (false || (!R.IsExported fd.name && !fd.embedded)) = false := by
      rcases hexp with h | h <;> simp [h]
    rw [(getField_descend R false v v1 _ s.length fd hp hd hF hrec (by rw [hlen]; omega)
      (fun j h1 h2 h3 => continuesAt_of_no_match R v _ j (hlonger j h2 h1 h3))).2]
    rw [hlen, hro]
    have hdrop : (joinDash (s :: t :: rest)).drop (s.length + 1) = joinDash (t :: rest) := by
      rw [hkey]; simp
    rw [hdrop]
    exact ih (fun x hx => hdash x (by simp at hx ⊢; tauto))
      (fun x hx => hascii x (by simp at hx ⊢; tauto))

/-- C2, amended, at a concrete input: a record holding the record field `B`,
which holds the integer field `C`; the key `b-c` yields the value of `C`. -/
theorem getField_nested_path_witness :
    getField asciiRuntime false [fld "B" (GoValue.struct [fld "C" (GoValue.int 7)])]
        (str "b-c")
      = Except.ok (GoValue.int 7, true) :=
  getField_nested_path asciiRuntime [fld "B" (GoValue.struct [fld "C" (GoValue.int 7)])]
    [str "b", str "c"] (GoValue.int 7)
    (NestedPath.step _ [fld "C" (GoValue.int 7)] _ _ []
      (fld "B" (GoValue.struct [fld "C" (GoValue.int 7)])) _ rfl (Or.inl rfl) rfl
      (by decide)
      (NestedPath.leaf _ _ (fld "C" (GoValue.int 7)) _ rfl rfl rfl))
    (by decide) (by decide) (by decide)

/-- C3, at the failing input: the root holds the record field `ABC` whose
record holds only `D`, and the key is `a-b-c-d`.  The walk descends on the
prefix `a-b-c` (index 5) into that record, but goes on with `c-d` (the key from
index `len("abc") + 1 = 4`) instead of `d` (the key from index 6), and aborts
with `could not find key: c-d`, while `getField` on the nested record and `d`
returns the value of `D`. -/
theorem getField_dashed_prefix_remaining_key :
    scanPrefixes asciiRuntime false
        [fld "ABC" (GoValue.struct [fld "D" (GoValue.int 4)])] (str "a-b-c-d") 9 7
      = Scan.recurse false [fld "D" (GoValue.int 4)] (str "c-d") ∧
    getField asciiRuntime false [fld "ABC" (GoValue.struct [fld "D" (GoValue.int 4)])]
        (str "a-b-c-d")
      = Except.error (Panic.couldNotFindKey (str "c-d")) ∧
    getField asciiRuntime false [fld "D" (GoValue.int 4)] ((str "a-b-c-d").drop 6)
      = Except.ok (GoValue.int 4, true) :=
  ⟨rfl, rfl, rfl⟩

/-- C4. Abort on miss: when no field of the record, its own or promoted, has
a lower-cased name equal to the normalised (lower-cased, dashes removed) whole
key or to the normalised key truncated at one of its `-` positions, `getField`
does not return: it panics with `could not find key: <key>`.  In particular
every key aborts against the record without fields, and the empty key aborts
against every record (the field names of a Go struct are never empty). -/
theorem getField_abort_on_miss :
    (∀ (R : Runtime) (ro : Bool) (v : Fields) (key : GoString),
      (∀ j : Nat, j ≤ key.length → (j = key.length ∨ key[j]? = some dash) →
        noFieldMatches R v (R.ToLower (ReplaceDash (key.take j)))) →
      getField R ro v key = Except.error (Panic.couldNotFindKey key)) ∧
    (∀ (R : Runtime) (ro : Bool) (key : GoString),
      getField R ro [] key = Except.error (Panic.couldNotFindKey key)) ∧
    (∀ (R : Runtime) (ro : Bool) (v : Fields), (∀ f ∈ v, f.name ≠ []) →
      getField R ro v [] = Except.error (Panic.couldNotFindKey [])) := by
  refine ⟨?_, ?_, ?_⟩
  · intro R ro v key hmiss
    exact getField_exhausted R ro v key
      (fun j h1 h2 => continuesAt_of_no_match R v key j (hmiss j h1 h2))
  · intro R ro key
    exact getField_exhausted R ro [] key
      (fun j _ _ => continuesAt_of_no_match R [] key j ⟨by simp, by simp⟩)
  · intro R ro v hnames
    apply getField_exhausted R ro v []
    intro j _ _
    apply continuesAt_of_no_match
    have hnil : R.ToLower [] = [] := R.ToLower_ascii [] rfl
    constructor
    · intro f hf he
      simp only [List.take_nil, ReplaceDash, List.filter_nil] at he
      rw [hnil] at he
      exact hnames f hf (R.ToLower_eq_nil _ he)
    · intro _
      simp only [List.take_nil, ReplaceDash, List.filter_nil]
      rw [R.promoted_no_match v _ (fun name hne => by
        rw [hnil]
        cases hl : R.ToLower name with
        | nil => exact absurd (R.ToLower_eq_nil _ hl) hne
        | cons a t => rfl)]
      rfl

/-- C4 at a concrete input: the key `bar-baz` against a record whose only field
is `Foo` aborts with `could not find key: bar-baz`. -/
theorem getField_abort_on_miss_witness :
    getField asciiRuntime false [fld "Foo" (GoValue.int 5)] (str "bar-baz")
      = Except.error (Panic.couldNotFindKey (str "bar-baz")) :=
  getField_abort_on_miss.1 asciiRuntime false [fld "Foo" (GoValue.int 5)] (str "bar-baz")
    (by decide)

/-- C5. Resolution never reports not-found: `getField` either panics (with a
panic of the program, the loops of the model never run out of fuel) or returns
a pair whose second component is `true`.  Consequently the `if !ok` branch of
every typed accessor is never taken: each accessor gives the same result as its
post-resolution step run with `found` forced to `true`. -/
theorem getField_never_not_found :
    (∀ (R : Runtime) (ro : Bool) (v : Fields) (key : GoString),
      (∃ p, p ≠ Panic.outOfFuel ∧ getField R ro v key = Except.error p) ∨
      (∃ val, getField R ro v key = Except.ok (val, true))) ∧
    (∀ (L : Lib) (s : InputSource) (name : GoString),
      s.Int L name = (s.get L.toRuntime name).map (fun r => intOf L name (r.1, true)) ∧
      s.Duration L name
        = (s.get L.toRuntime name).map (fun r => durationOf L name (r.1, true)) ∧
      s.Float64 L name
        = (s.get L.toRuntime name).map (fun r => float64Of L name (r.1, true)) ∧
      s.String L name = (s.get L.toRuntime name).map (fun r => stringOf L name (r.1, true)) ∧
      s.StringSlice L name
        = (s.get L.toRuntime name).map (fun r => stringSliceOf L name (r.1, true)) ∧
      s.IntSlice L name
        = (s.get L.toRuntime name).map (fun r => intSliceOf L name (r.1, true)) ∧
      s.Generic L name
        = (s.get L.toRuntime name).map (fun r => genericOf L name (r.1, true)) ∧
      s.Bool L name = (s.get L.toRuntime name).map (fun r => boolOf L name (r.1, true)) ∧
      s.BoolT L name = (s.get L.toRuntime name).map (fun r => boolTOf L name (r.1, true))) := by
  constructor
  · intro R ro v key
    cases h : getField R ro v key with
    | error p => exact Or.inl ⟨p, fun hp => getField_ne_outOfFuel R ro v key (hp ▸ h), rfl⟩
    | ok r =>
      right
      refine ⟨r.1, ?_⟩
      have := getFieldLoop_ok_true R _ _ _ _ _ h
      cases r
      simp_all
  · intro L s name
    exact ⟨map_get_forced L.toRuntime s name _, map_get_forced L.toRuntime s name _,
      map_get_forced L.toRuntime s name _, map_get_forced L.toRuntime s name _,
      map_get_forced L.toRuntime s name _, map_get_forced L.toRuntime s name _,
      map_get_forced L.toRuntime s name _, map_get_forced L.toRuntime s name _,
      map_get_forced L.toRuntime s name _⟩

/-- C6. Type-mismatch law: when the resolution of `name` succeeds with a value
whose dynamic type the accessor does not accept, the accessor returns the zero
value of its type (`true` for `BoolT`) together with a non-nil error, and the
message of that error ends with `name` as the caller passed it. -/
theorem accessor_type_mismatch (L : Lib) (s : InputSource) (name : GoString) (val : GoValue)
    (hget : s.get L.toRuntime name = Except.ok (val, true)) :
    ((∀ n, val ≠ GoValue.int n) →
      s.Int L name = Except.ok (0, some (couldNotConvert L val (str "int") name))) ∧
    ((∀ d, val ≠ GoValue.duration d) →
      s.Duration L name
        = Except.ok (0, some (couldNotConvert L val (str "time.Duration") name))) ∧
    ((∀ x, val ≠ GoValue.float64 x) →
      s.Float64 L name = Except.ok (0, some (couldNotConvert L val (str "float64") name))) ∧
    ((∀ b, val ≠ GoValue.bool b) →
      s.Bool L name = Except.ok (false, some (couldNotConvert L val (str "bool") name))) ∧
    ((∀ b, val ≠ GoValue.bool b) →
      s.BoolT L name = Except.ok (true, some (couldNotConvert L val (str "boolT") name))) ∧
    ((∀ xs, val ≠ GoValue.stringSlice xs) →
      s.StringSlice L name
        = Except.ok (none, some (couldNotConvert L val (str "[]string") name))) ∧
    ((∀ xs, val ≠ GoValue.intSlice xs) →
      s.IntSlice L name = Except.ok (none, some (couldNotConvert L val (str "[]int") name))) ∧
    ((∀ x, val ≠ GoValue.string x) → (∀ a, val ≠ GoValue.ip a) →
      s.String L name = Except.ok ([], some (couldNotConvert L val (str "string") name))) ∧
    (L.isGeneric val = false → L.genericer val = none →
      s.Generic L name
        = Except.ok (none, some (couldNotConvert L val (str "cli.Generic") name))) ∧
    (∀ target : GoString, name <:+ couldNotConvert L val target name) := by
  refine ⟨?_, ?_, ?_, ?_, ?_, ?_, ?_, ?_, ?_, ?_⟩
  · intro h
    cases val <;> simp_all [InputSource.Int, Except.map, intOf]
  · intro h
    cases val <;> simp_all [InputSource.Duration, Except.map, durationOf]
  · intro h
    cases val <;> simp_all [InputSource.Float64, Except.map, float64Of]
  · intro h
    cases val <;> simp_all [InputSource.Bool, Except.map, boolOf]
  · intro h
    cases val <;> simp_all [InputSource.BoolT, Except.map, boolTOf]
  · intro h
    cases val <;> simp_all [InputSource.StringSlice, Except.map, stringSliceOf]
  · intro h
    cases val <;> simp_all [InputSource.IntSlice, Except.map, intSliceOf]
  · intro h1 h2
    cases val <;> simp_all [InputSource.String, Except.map, stringOf]
  · intro h1 h2
    simp [InputSource.Generic, Except.map, genericOf, hget, h1, h2]
  · exact fun target => suffix_couldNotConvert L val target name

/-- C6 at a concrete input: `Int` on the key `foo` whose field `Foo` holds a
string returns `0` and an error whose message ends with `foo`. -/
theorem accessor_type_mismatch_witness :
    (InputSource.mk [fld "Foo" (GoValue.string (str "x"))]).Int exampleLib (str "foo")
      = Except.ok (0, some (couldNotConvert exampleLib (GoValue.string (str "x"))
          (str "int") (str "foo"))) ∧
    (str "foo") <:+ couldNotConvert exampleLib (GoValue.string (str "x"))
      (str "int") (str "foo") :=
  ⟨(accessor_type_mismatch exampleLib (InputSource.mk [fld "Foo" (GoValue.string (str "x"))])
      (str "foo") (GoValue.string (str "x")) rfl).1 (fun _ h => nomatch h),
   (accessor_type_mismatch exampleLib (InputSource.mk [fld "Foo" (GoValue.string (str "x"))])
      (str "foo") (GoValue.string (str "x")) rfl).2.2.2.2.2.2.2.2.2 (str "int")⟩

/-- C7 as stated fails: the source is built by `New` over a record whose field
`foo` holds the integer 5, and the key `foo` matches that field; yet `Int`
does not return `(5, nil)`: the field is unexported and `f.Interface()`
panics. -/
theorem accessor_unexported_field_panics :
    New (some (GoValue.struct [fld "foo" (GoValue.int 5)]))
      = Except.ok (InputSource.mk [fld "foo" (GoValue.int 5)]) ∧
    [fld "foo" (GoValue.int 5)].filter
        (fun f => exampleLib.ToLower (ReplaceDash (str "foo")) == exampleLib.ToLower f.name)
      = [fld "foo" (GoValue.int 5)] ∧
    (InputSource.mk [fld "foo" (GoValue.int 5)]).Int exampleLib (str "foo")
      = Except.error Panic.interfaceOnUnexported :=
  ⟨rfl, rfl, rfl⟩

/-- C7, amended. Round trip: for a source built by `New` over a record in which
exactly one field matches the key (lower-cased, dashes removed), is exported
and holds the value `x` of a supported type, the accessor of that type returns
exactly `x` and a nil error: `Int`, `Duration`, `Float64`, `String`,
`StringSlice` and `IntSlice` (the same sequence, order preserved), `Bool` and
`BoolT`. -/
theorem accessor_round_trip (L : Lib) (fields : Fields) (key : GoString)
    (fd : Field GoValue)
    (huniq : fields.filter (fun f => L.ToLower (ReplaceDash key) == L.ToLower f.name) = [fd])
    (hexp : L.IsExported fd.name = true) :
    ∃ s : InputSource, New (some (GoValue.struct fields)) = Except.ok s ∧
      (∀ n, fd.value = GoValue.int n → s.Int L key = Except.ok (n, none)) ∧
      (∀ d, fd.value = GoValue.duration d → s.Duration L key = Except.ok (d, none)) ∧
      (∀ x, fd.value = GoValue.float64 x → s.Float64 L key = Except.ok (x, none)) ∧
      (∀ x, fd.value = GoValue.string x → s.String L key = Except.ok (x, none)) ∧
      (∀ xs, fd.value = GoValue.stringSlice xs → s.StringSlice L key = Except.ok (xs, none)) ∧
      (∀ xs, fd.value = GoValue.intSlice xs → s.IntSlice L key = Except.ok (xs, none)) ∧
      (∀ b, fd.value = GoValue.bool b → s.Bool L key = Except.ok (b, none)) ∧
      (∀ b, fd.value = GoValue.bool b → s.BoolT L key = Except.ok (b, none)) := by
  have hF := FieldByNameFunc_unique L.toRuntime fields
    (fun name => L.ToLower (ReplaceDash key) == L.ToLower name) fd huniq
  have hget : ∀ val, fd.value = val → Indirect val = some val → Interface val = val →
      getField L.toRuntime false fields key = Except.ok (val, true) := by
    intro val hv hi hif
    have := getField_found L.toRuntime fields key fd val hF hexp (hv ▸ hi)
    rw [hif] at this
    exact this
  refine ⟨InputSource.mk fields, rfl, ?_, ?_, ?_, ?_, ?_, ?_, ?_, ?_⟩
  · intro n hn
    simp [InputSource.Int, InputSource.get, hget _ hn rfl rfl, Except.map, intOf]
  · intro n hn
    simp [InputSource.Duration, InputSource.get, hget _ hn rfl rfl, Except.map, durationOf]
  · intro n hn
    simp [InputSource.Float64, InputSource.get, hget _ hn rfl rfl, Except.map, float64Of]
  · intro n hn
    simp [InputSource.String, InputSource.get, hget _ hn rfl rfl, Except.map, stringOf]
  · intro n hn
    simp [InputSource.StringSlice, InputSource.get, hget _ hn rfl rfl, Except.map,
      stringSliceOf]
  · intro n hn
    simp [InputSource.IntSlice, InputSource.get, hget _ hn rfl rfl, Except.map, intSliceOf]
  · intro n hn
    simp [InputSource.Bool, InputSource.get, hget _ hn rfl rfl, Except.map, boolOf]
  · intro n hn
    simp [InputSource.BoolT, InputSource.get, hget _ hn rfl rfl, Except.map, boolTOf]

/-- C7, amended, at a concrete input: a record with the integer field
`Foo = 5` and the key `foo`; `Int` returns `(5, nil)`. -/
theorem accessor_round_trip_witness :
    ∃ s : InputSource,
      New (some (GoValue.struct [fld "Foo" (GoValue.int 5)])) = Except.ok s ∧
      s.Int exampleLib (str "foo") = Except.ok (5, none) :=
  match accessor_round_trip exampleLib [fld "Foo" (GoValue.int 5)] (str "foo")
      (fld "Foo" (GoValue.int 5)) rfl rfl with
  | ⟨s, hnew, hint, _⟩ => ⟨s, hnew, hint 5 rfl⟩

/-- C8 as stated fails: over a record whose field `Foo` holds a string, the
key `foo` resolves, `Bool` returns `false` and `BoolT` returns `true` (each
with an error). -/
theorem bool_boolT_value_differs :
    New (some (GoValue.struct [fld "Foo" (GoValue.string (str "x"))]))
      = Except.ok (InputSource.mk [fld "Foo" (GoValue.string (str "x"))]) ∧
    (InputSource.mk [fld "Foo" (GoValue.string (str "x"))]).get asciiRuntime (str "foo")
      = Except.ok (GoValue.string (str "x"), true) ∧
    ((InputSource.mk [fld "Foo" (GoValue.string (str "x"))]).Bool exampleLib
      (str "foo")).map Prod.fst = Except.ok false ∧
    ((InputSource.mk [fld "Foo" (GoValue.string (str "x"))]).BoolT exampleLib
      (str "foo")).map Prod.fst = Except.ok true :=
  ⟨rfl, rfl, rfl, rfl⟩

/-- C8, amended. For every source and key whose resolution succeeds, `Bool` and
`BoolT` agree on whether an error is returned; when the resolved value is a
`bool` both return it with a nil error; when it is not, both return an error,
`Bool` with the value `false` and `BoolT` with the value `true`, and the two
messages differ only in the wording of the target type. -/
theorem bool_boolT_same_path (L : Lib) (s : InputSource) (key : GoString) (val : GoValue)
    (hget : s.get L.toRuntime key = Except.ok (val, true)) :
    (s.Bool L key).map (fun r => r.2.isSome) = (s.BoolT L key).map (fun r => r.2.isSome) ∧
    (∀ b, val = GoValue.bool b →
      s.Bool L key = Except.ok (b, none) ∧ s.BoolT L key = Except.ok (b, none)) ∧
    ((∀ b, val ≠ GoValue.bool b) →
      s.Bool L key = Except.ok (false, some (couldNotConvert L val (str "bool") key)) ∧
      s.BoolT L key = Except.ok (true, some (couldNotConvert L val (str "boolT") key))) := by
  refine ⟨?_, ?_, ?_⟩
  · cases val <;> simp [InputSource.Bool, InputSource.BoolT, Except.map, boolOf, boolTOf, hget]
  · intro b hb
    subst hb
    simp [InputSource.Bool, InputSource.BoolT, Except.map, boolOf, boolTOf, hget]
  · intro h
    cases val <;> simp_all [InputSource.Bool, InputSource.BoolT, Except.map, boolOf, boolTOf]

/-- C8, amended, at concrete inputs: a `bool` field gives the same value from
both accessors, a string field gives `false` from `Bool` and `true` from
`BoolT`, each with an error. -/
theorem bool_boolT_same_path_witness :
    ((InputSource.mk [fld "On" (GoValue.bool false)]).Bool exampleLib (str "on")
        = Except.ok (false, none) ∧
      (InputSource.mk [fld "On" (GoValue.bool false)]).BoolT exampleLib (str "on")
        = Except.ok (false, none)) ∧
    ((InputSource.mk [fld "Foo" (GoValue.string (str "x"))]).Bool exampleLib (str "foo")
        = Except.ok (false, some (couldNotConvert exampleLib (GoValue.string (str "x"))
            (str "bool") (str "foo"))) ∧
      (InputSource.mk [fld "Foo" (GoValue.string (str "x"))]).BoolT exampleLib (str "foo")
        = Except.ok (true, some (couldNotConvert exampleLib (GoValue.string (str "x"))
            (str "boolT") (str "foo")))) :=
  ⟨(bool_boolT_same_path exampleLib (InputSource.mk [fld "On" (GoValue.bool false)])
      (str "on") (GoValue.bool false) rfl).2.1 false rfl,
   (bool_boolT_same_path exampleLib
      (InputSource.mk [fld "Foo" (GoValue.string (str "x"))])
      (str "foo") (GoValue.string (str "x")) rfl).2.2 (fun _ h => nomatch h)⟩

/-- C9. Absent-key defaults of the accessor layer: the post-resolution step of
each accessor, given a resolver result with `found = false`, returns a nil
error and the zero value of the type (`0`, `0`, `0.0`, the empty string, nil,
nil, nil, `false`), except `BoolT`, which returns `true`; the result does not
depend on the value component. -/
theorem accessor_absent_defaults (L : Lib) (name : GoString) (val : GoValue) :
    intOf L name (val, false) = (0, none) ∧
    durationOf L name (val, false) = (0, none) ∧
    float64Of L name (val, false) = (0, none) ∧
    stringOf L name (val, false) = ([], none) ∧
    stringSliceOf L name (val, false) = (none, none) ∧
    intSliceOf L name (val, false) = (none, none) ∧
    genericOf L name (val, false) = (none, none) ∧
    boolOf L name (val, false) = (false, none) ∧
    boolTOf L name (val, false) = (true, none) :=
  ⟨rfl, rfl, rfl, rfl, rfl, rfl, rfl, rfl, rfl⟩

/-- C10. `String` on network addresses: when the key resolves to a `net.IP`
value, `String` returns a nil error with the empty string for the nil address
and with `a.String()` for a non-nil one; when the key resolves to a string it
returns that string and a nil error; a value of any other dynamic type gives
an error. -/
theorem string_accessor_ip (L : Lib) (s : InputSource) (key : GoString) (val : GoValue)
    (hget : s.get L.toRuntime key = Except.ok (val, true)) :
    (val = GoValue.ip none → s.String L key = Except.ok ([], none)) ∧
    (∀ a, val = GoValue.ip (some a) → s.String L key = Except.ok (L.ipString a, none)) ∧
    (∀ x, val = GoValue.string x → s.String L key = Except.ok (x, none)) ∧
    ((∀ x, val ≠ GoValue.string x) → (∀ a, val ≠ GoValue.ip a) →
      s.String L key = Except.ok ([], some (couldNotConvert L val (str "string") key))) := by
  refine ⟨?_, ?_, ?_, ?_⟩
  · intro h
    subst h
    simp [InputSource.String, Except.map, stringOf, hget]
  · intro a h
    subst h
    simp [InputSource.String, Except.map, stringOf, hget]
  · intro x h
    subst h
    simp [InputSource.String, Except.map, stringOf, hget]
  · intro h1 h2
    cases val <;> simp_all [InputSource.String, Except.map, stringOf]

/-- C10 at concrete inputs: a nil address gives the empty string, a non-nil
address its text, a string field itself, each with a nil error. -/
theorem string_accessor_ip_witness :
    (InputSource.mk [fld "Addr" (GoValue.ip none)]).String exampleLib (str "addr")
      = Except.ok ([], none) ∧
    (InputSource.mk [fld "Addr" (GoValue.ip (some [127, 0, 0, 1]))]).String exampleLib
        (str "addr")
      = Except.ok (exampleLib.ipString [127, 0, 0, 1], none) ∧
    (InputSource.mk [fld "Host" (GoValue.string (str "h"))]).String exampleLib
        (str "host")
      = Except.ok (str "h", none) :=
  ⟨(string_accessor_ip exampleLib (InputSource.mk [fld "Addr" (GoValue.ip none)])
      (str "addr") (GoValue.ip none) rfl).1 rfl,
   (string_accessor_ip exampleLib
      (InputSource.mk [fld "Addr" (GoValue.ip (some [127, 0, 0, 1]))])
      (str "addr") (GoValue.ip (some [127, 0, 0, 1])) rfl).2.1 [127, 0, 0, 1] rfl,
   (string_accessor_ip exampleLib (InputSource.mk [fld "Host" (GoValue.string (str "h"))])
      (str "host") (GoValue.string (str "h")) rfl).2.2.1 (str "h") rfl⟩

/-- C11. Capability dispatch of `Generic`: when the key resolves to `x`,
`Generic` returns `(x, nil)` if `x` satisfies `cli.Generic`; otherwise, if `x`
is a `Genericer`, it returns `(x.Generic(), nil)`; otherwise `(nil, error)`.
When `x` has both capabilities the first case applies, whatever `x.Generic()`
would give. -/
theorem generic_dispatch (L : Lib) (s : InputSource) (key : GoString) (x : GoValue)
    (hget : s.get L.toRuntime key = Except.ok (x, true)) :
    (L.isGeneric x = true → s.Generic L key = Except.ok (some x, none)) ∧
    (L.isGeneric x = false → ∀ g, L.genericer x = some g →
      s.Generic L key = Except.ok (g, none)) ∧
    (L.isGeneric x = false → L.genericer x = none →
      s.Generic L key
        = Except.ok (none, some (couldNotConvert L x (str "cli.Generic") key))) := by
  refine ⟨?_, ?_, ?_⟩
  · intro h
    simp [InputSource.Generic, Except.map, genericOf, hget, h]
  · intro h g hg
    simp [InputSource.Generic, Except.map, genericOf, hget, h, hg]
  · intro h hg
    simp [InputSource.Generic, Except.map, genericOf, hget, h, hg]

/-- C11 at concrete inputs: a field with both capabilities is returned itself,
a field that is only a `Genericer` gives the result of its `Generic()`, and an
integer field gives an error. -/
theorem generic_dispatch_witness :
    (InputSource.mk [fld "G" (GoValue.other (str "Both") (str "b"))]).Generic
        genericLib (str "g")
      = Except.ok (some (GoValue.other (str "Both") (str "b")), none) ∧
    (InputSource.mk [fld "G" (GoValue.other (str "Maker") (str "m"))]).Generic
        genericLib (str "g")
      = Except.ok (some (GoValue.other (str "Flag") (str "m")), none) ∧
    (InputSource.mk [fld "G" (GoValue.int 1)]).Generic genericLib (str "g")
      = Except.ok (none, some (couldNotConvert genericLib (GoValue.int 1)
          (str "cli.Generic") (str "g"))) :=
  ⟨(generic_dispatch genericLib
      (InputSource.mk [fld "G" (GoValue.other (str "Both") (str "b"))]) (str "g")
      (GoValue.other (str "Both") (str "b")) rfl).1 rfl,
   (generic_dispatch genericLib
      (InputSource.mk [fld "G" (GoValue.other (str "Maker") (str "m"))]) (str "g")
      (GoValue.other (str "Maker") (str "m")) rfl).2.1 rfl
      (some (GoValue.other (str "Flag") (str "m"))) rfl,
   (generic_dispatch genericLib (InputSource.mk [fld "G" (GoValue.int 1)]) (str "g")
      (GoValue.int 1) rfl).2.2 rfl rfl⟩

/-- C12. Shape check of the constructor: `New(data)` panics with
`inputsource: structure is not a struct` exactly when `data`, with at most one
pointer removed, is not a struct: a nil value, a nil pointer, a pointer to a
pointer to a record and every scalar or sequence are refused.  Otherwise `New`
returns the source whose root is the record itself, unchanged. -/
theorem New_shape_check :
    (∀ data : Option GoValue,
      New data = Except.error Panic.notAStruct ↔
        ¬ ∃ fields, data = some (GoValue.struct fields)
          ∨ data = some (GoValue.ptr (GoValue.struct fields))) ∧
    (∀ fields : Fields,
      New (some (GoValue.struct fields)) = Except.ok (InputSource.mk fields) ∧
      New (some (GoValue.ptr (GoValue.struct fields))) = Except.ok (InputSource.mk fields)) ∧
    New none = Except.error Panic.notAStruct ∧
    New (some GoValue.nilPtr) = Except.error Panic.notAStruct ∧
    (∀ fields : Fields,
      New (some (GoValue.ptr (GoValue.ptr (GoValue.struct fields))))
        = Except.error Panic.notAStruct) ∧
    (∀ val : GoValue, Indirect val = some val → structFields val = none →
      New (some val) = Except.error Panic.notAStruct) := by
  refine ⟨?_, ?_, rfl, rfl, fun _ => rfl, ?_⟩
  · intro data
    constructor
    · rintro h ⟨fields, hf | hf⟩ <;> subst hf <;> simp [New, Indirect, structFields] at h
    · intro h
      cases data with
      | none => rfl
      | some val =>
        cases val with
        | struct fields => exact absurd ⟨fields, Or.inl rfl⟩ h
        | ptr elem =>
          cases elem with
          | struct fields => exact absurd ⟨fields, Or.inr rfl⟩ h
          | _ => rfl
        | _ => rfl
  · intro fields
    exact ⟨rfl, rfl⟩
  · intro val h1 h2
    simp [New, h1, h2]

/-- C12 at concrete inputs: an integer is refused, a record is accepted. -/
theorem New_shape_check_witness :
    New (some (GoValue.int 3)) = Except.error Panic.notAStruct ∧
    New (some (GoValue.struct [fld "Foo" (GoValue.int 5)]))
      = Except.ok (InputSource.mk [fld "Foo" (GoValue.int 5)]) :=
  ⟨New_shape_check.2.2.2.2.2 (GoValue.int 3) rfl rfl,
   (New_shape_check.2.1 [fld "Foo" (GoValue.int 5)]).1⟩

/-- C13. Case invariance of the whole resolution: for two ASCII keys that are
equal after lower-casing, `getField` on the same record has the same outcome:
both lookups panic (with the same panic, up to the case of the key in its
message), or both return the same value with `found = true`. -/
theorem getField_case_invariant (R : Runtime) (ro : Bool) (v : Fields) (k1 k2 : GoString)
    (hascii1 : isASCII k1 = true) (hascii2 : isASCII k2 = true)
    (h : R.ToLower k1 = R.ToLower k2) :
    (∃ p1 p2, getField R ro v k1 = Except.error p1 ∧ getField R ro v k2 = Except.error p2 ∧
      p1.caseFolded = p2.caseFolded) ∨
    (∃ val, getField R ro v k1 = Except.ok (val, true) ∧
      getField R ro v k2 = Except.ok (val, true)) := by
  have h' : asciiToLower k1 = asciiToLower k2 := by
    rw [← R.ToLower_ascii k1 hascii1, ← R.ToLower_ascii k2 hascii2, h]
  have hlen : k1.length = k2.length := by
    have := congrArg List.length h'
    simpa [asciiToLower] using this
  simp only [getField, hlen]
  exact getFieldLoop_case_invariant R _ ro v k1 k2 hascii1 hascii2 h'

/-- C13 at concrete inputs: the keys `B-c` and `b-C` against a record with the
nested field `B.C`, and the keys `X-y` and `x-Y` against the same record: the
first two return the value of `C`, the last two both abort. -/
theorem getField_case_invariant_witness :
    ((∃ p1 p2,
        getField asciiRuntime false [fld "B" (GoValue.struct [fld "C" (GoValue.int 7)])]
          (str "B-c") = Except.error p1 ∧
        getField asciiRuntime false [fld "B" (GoValue.struct [fld "C" (GoValue.int 7)])]
          (str "b-C") = Except.error p2 ∧
        p1.caseFolded = p2.caseFolded) ∨
      (∃ val,
        getField asciiRuntime false [fld "B" (GoValue.struct [fld "C" (GoValue.int 7)])]
          (str "B-c") = Except.ok (val, true) ∧
        getField asciiRuntime false [fld "B" (GoValue.struct [fld "C" (GoValue.int 7)])]
          (str "b-C") = Except.ok (val, true))) ∧
    getField asciiRuntime false [fld "B" (GoValue.struct [fld "C" (GoValue.int 7)])]
      (str "B-c") = Except.ok (GoValue.int 7, true) ∧
    getField asciiRuntime false [fld "B" (GoValue.struct [fld "C" (GoValue.int 7)])]
      (str "X-y") = Except.error (Panic.couldNotFindKey (str "X-y")) ∧
    getField asciiRuntime false [fld "B" (GoValue.struct [fld "C" (GoValue.int 7)])]
      (str "x-Y") = Except.error (Panic.couldNotFindKey (str "x-Y")) :=
  ⟨getField_case_invariant asciiRuntime false
      [fld "B" (GoValue.struct [fld "C" (GoValue.int 7)])] (str "B-c") (str "b-C")
      rfl rfl rfl, rfl, rfl, rfl⟩

/-- C14 as stated fails: the only field `n` holds a non-nil pointer to the
integer 7 and is matched by the whole key `n`; yet `getField` does not return
7 and `Int` does not return `(7, nil)`: the field is unexported and
`f.Interface()` panics. -/
theorem getField_unexported_pointer_panics :
    [fld "n" (GoValue.ptr (GoValue.int 7))].filter
        (fun f => asciiRuntime.ToLower (ReplaceDash (str "n")) == asciiRuntime.ToLower f.name)
      = [fld "n" (GoValue.ptr (GoValue.int 7))] ∧
    getField asciiRuntime false [fld "n" (GoValue.ptr (GoValue.int 7))] (str "n")
      = Except.error Panic.interfaceOnUnexported ∧
    (InputSource.mk [fld "n" (GoValue.ptr (GoValue.int 7))]).Int exampleLib (str "n")
      = Except.error Panic.interfaceOnUnexported :=
  ⟨rfl, rfl, rfl⟩

/-- C14, amended. Transparent single-level dereference: a full-key match on an
exported field (of a record not reached through an unexported field) that
holds a non-nil pointer to `x` returns `x` itself, so an exported
pointer-to-int field holding `n` gives `(n, nil)` from `Int`; on a proper
prefix a field holding a non-nil pointer to a record is descended into as the
record is (with the key cut at `len(test)+1`, a slice that panics when it is
out of bounds).  Only one level is removed: on a proper prefix a field holding
a pointer to a pointer to a record is passed over (the loop body continues
with the next shorter prefix). -/
theorem getField_single_dereference :
    (∀ (R : Runtime) (v : Fields) (key : GoString) (fd : Field GoValue) (x : GoValue),
      v.filter (fun f => R.ToLower (ReplaceDash key) == R.ToLower f.name) = [fd] →
      R.IsExported fd.name = true → fd.value = GoValue.ptr x →
      getField R false v key = Except.ok (Interface x, true)) ∧
    (∀ (L : Lib) (v : Fields) (key : GoString) (fd : Field GoValue) (n : GoInt),
      v.filter (fun f => L.ToLower (ReplaceDash key) == L.ToLower f.name) = [fd] →
      L.IsExported fd.name = true → fd.value = GoValue.ptr (GoValue.int n) →
      (InputSource.mk v).Int L key = Except.ok (n, none)) ∧
    (∀ (R : Runtime) (ro : Bool) (v v1 : Fields) (key : GoString) (p fuel : Nat)
      (fd : Field GoValue), p < key.length →
      FieldByNameFunc R v
          (fun name => R.ToLower (ReplaceDash (key.take p)) == R.ToLower name)
        = Lookup.found fd →
      fd.value = GoValue.ptr (GoValue.struct v1) →
      scanPrefixes R ro v key (fuel + 1) p
        = if (R.ToLower (ReplaceDash (key.take p))).length + 1 ≤ key.length then
            Scan.recurse (ro || (!R.IsExported fd.name && !fd.embedded)) v1
              (key.drop ((R.ToLower (ReplaceDash (key.take p))).length + 1))
          else Scan.abort Panic.sliceBoundsOutOfRange) ∧
    (∀ (R : Runtime) (ro : Bool) (v v1 : Fields) (key : GoString) (p fuel : Nat)
      (fd : Field GoValue), p < key.length →
      FieldByNameFunc R v
          (fun name => R.ToLower (ReplaceDash (key.take p)) == R.ToLower name)
        = Lookup.found fd →
      fd.value = GoValue.ptr (GoValue.ptr (GoValue.struct v1)) →
      scanPrefixes R ro v key (fuel + 1) p
        = scanPrefixes R ro v key fuel (LastIndexDash (key.take p))) := by
  refine ⟨?_, ?_, ?_, ?_⟩
  · intro R v key fd x h hexp hv
    exact getField_found R v key fd x
      (FieldByNameFunc_unique R v (fun n => R.ToLower (ReplaceDash key) == R.ToLower n) fd h)
      hexp (by rw [hv]; rfl)
  · intro L v key fd n h hexp hv
    have := getField_found L.toRuntime v key fd (GoValue.int n)
      (FieldByNameFunc_unique L.toRuntime v
        (fun n => L.ToLower (ReplaceDash key) == L.ToLower n) fd h)
      hexp (by rw [hv]; rfl)
    simp [InputSource.Int, InputSource.get, this, Except.map, intOf, Interface]
  · intro R ro v v1 key p fuel fd hp hF hv
    exact scanPrefixes_partial_struct R ro v v1 key p fuel fd hp hF (by rw [hv]; rfl)
  · intro R ro v v1 key p fuel fd hp hF hv
    exact scanPrefixes_continue R ro v key p fuel
      (Or.inr ⟨by omega, fd, GoValue.ptr (GoValue.struct v1), hF, by rw [hv]; rfl, rfl⟩)

/-- C14, amended, at concrete inputs: `Int` on the exported pointer-to-int
field `N` holding 7 gives `(7, nil)`; the key `b-c` descends through the
pointer field `B`; behind two pointers the record is not reached and the
lookup aborts. -/
theorem getField_single_dereference_witness :
    (InputSource.mk [fld "N" (GoValue.ptr (GoValue.int 7))]).Int exampleLib (str "n")
      = Except.ok (7, none) ∧
    getField asciiRuntime false
        [fld "B" (GoValue.ptr (GoValue.struct [fld "C" (GoValue.int 1)]))] (str "b-c")
      = Except.ok (GoValue.int 1, true) ∧
    getField asciiRuntime false
        [fld "B" (GoValue.ptr (GoValue.ptr (GoValue.struct [fld "C" (GoValue.int 1)])))]
        (str "b-c")
      = Except.error (Panic.couldNotFindKey (str "b-c")) :=
  ⟨getField_single_dereference.2.1 exampleLib [fld "N" (GoValue.ptr (GoValue.int 7))]
      (str "n") (fld "N" (GoValue.ptr (GoValue.int 7))) 7 rfl rfl rfl, rfl, rfl⟩

/-- C15 as stated fails: the field `AB` matches the proper prefix `a-b` of the
key `a-b-c` and holds no record but a nil pointer; the walk does not go on to
the prefix `a` (where `A.BC` would be found, as it is without `AB`), it panics
in `reflect.Value.Type`. -/
theorem getField_nil_partial_match_aborts :
    getField asciiRuntime false
        [fld "AB" GoValue.nilPtr, fld "A" (GoValue.struct [fld "BC" (GoValue.int 1)])]
        (str "a-b-c")
      = Except.error Panic.typeOnZeroValue ∧
    getField asciiRuntime false [fld "A" (GoValue.struct [fld "BC" (GoValue.int 1)])]
        (str "a-b-c")
      = Except.ok (GoValue.int 1, true) :=
  ⟨rfl, rfl⟩

/-- C15, amended. Fall-through on an unusable partial match: a field that
matches a proper prefix `key[:p]` and holds, one pointer removed, a non-nil
value that is not a record neither ends the scan nor panics; the loop goes on
with the next shorter dash-boundary prefix, at `LastIndex(key[:p], "-")`. -/
theorem getField_fall_through (R : Runtime) (ro : Bool) (v : Fields) (key : GoString)
    (p fuel : Nat) (fd : Field GoValue) (g : GoValue)
    (hp : p < key.length)
    (hF : FieldByNameFunc R v
      (fun name => R.ToLower (ReplaceDash (key.take p)) == R.ToLower name) = Lookup.found fd)
    (hI : Indirect fd.value = some g) (hS : structFields g = none) :
    scanPrefixes R ro v key (fuel + 1) p
      = scanPrefixes R ro v key fuel (LastIndexDash (key.take p)) :=
  scanPrefixes_continue R ro v key p fuel (Or.inr ⟨by omega, fd, g, hF, hI, hS⟩)

/-- C15, amended, at a concrete input: a root with the integer field `AB` and
the record field `A` holding `BC`; on the key `a-b-c` the scan passes from the
prefix `a-b` (index 3) to the prefix `a` (index 1) and returns `A.BC`. -/
theorem getField_fall_through_witness :
    scanPrefixes asciiRuntime false
        [fld "AB" (GoValue.int 9), fld "A" (GoValue.struct [fld "BC" (GoValue.int 1)])]
        (str "a-b-c") 6 3
      = scanPrefixes asciiRuntime false
        [fld "AB" (GoValue.int 9), fld "A" (GoValue.struct [fld "BC" (GoValue.int 1)])]
        (str "a-b-c") 5 1 ∧
    getField asciiRuntime false
        [fld "AB" (GoValue.int 9), fld "A" (GoValue.struct [fld "BC" (GoValue.int 1)])]
        (str "a-b-c")
      = Except.ok (GoValue.int 1, true) :=
  ⟨getField_fall_through asciiRuntime false
      [fld "AB" (GoValue.int 9), fld "A" (GoValue.struct [fld "BC" (GoValue.int 1)])]
      (str "a-b-c") 3 5 (fld "AB" (GoValue.int 9)) (GoValue.int 9)
      (by decide) rfl rfl rfl, rfl⟩

/-- C16 as stated fails: the fields `A` and `AB` of the root match the two
proper prefixes `a` and `a-b` of the key `a-b-c` and both hold records, yet
the walk does not descend into `AB`, the one matching the longer prefix: the
field `ABC` matches the whole key, which is tried first, and its value is
returned. -/
theorem getField_longer_prefix_not_descended :
    FieldByNameFunc asciiRuntime
        [fld "A" (GoValue.struct [fld "BC" (GoValue.int 2)]),
         fld "AB" (GoValue.struct [fld "C" (GoValue.int 3)]),
         fld "ABC" (GoValue.int 1)]
        (fun name => asciiRuntime.ToLower (ReplaceDash ((str "a-b-c").take 1))
          == asciiRuntime.ToLower name)
      = Lookup.found (fld "A" (GoValue.struct [fld "BC" (GoValue.int 2)])) ∧
    FieldByNameFunc asciiRuntime
        [fld "A" (GoValue.struct [fld "BC" (GoValue.int 2)]),
         fld "AB" (GoValue.struct [fld "C" (GoValue.int 3)]),
         fld "ABC" (GoValue.int 1)]
        (fun name => asciiRuntime.ToLower (ReplaceDash ((str "a-b-c").take 3))
          == asciiRuntime.ToLower name)
      = Lookup.found (fld "AB" (GoValue.struct [fld "C" (GoValue.int 3)])) ∧
    scanPrefixes asciiRuntime false
        [fld "A" (GoValue.struct [fld "BC" (GoValue.int 2)]),
         fld "AB" (GoValue.struct [fld "C" (GoValue.int 3)]),
         fld "ABC" (GoValue.int 1)]
        (str "a-b-c") 7 5
      = Scan.found (GoValue.int 1) ∧
    getField asciiRuntime false
        [fld "A" (GoValue.struct [fld "BC" (GoValue.int 2)]),
         fld "AB" (GoValue.struct [fld "C" (GoValue.int 3)]),
         fld "ABC" (GoValue.int 1)]
        (str "a-b-c")
      = Except.ok (GoValue.int 1, true) :=
  ⟨rfl, rfl, rfl, rfl⟩

/-- C16, amended. Longest prefix is tried first: the indices at which the inner
loop of `getField` examines the record are, in this order, `len(key)` and then
the positions of the `-` characters of the key from the rightmost to the
leftmost (for `a-b-c` the prefixes `a-b-c`, `a-b`, `a`), each compared after
lower-casing and removing dashes, and the loop ends at the first of them whose
body does not end in `continue`.  When fields of the record match two proper
prefixes `key[:p1]` and `key[:p2]` with `p1 < p2` and both hold records, the
loop is decided among the candidates down to `p2` and never reaches `p1`; and
when moreover the body ends in `continue` at every candidate longer than
`key[:p2]` (no field matches it, or it is a proper prefix and the field that
matches holds neither a record nor a nil pointer), the walk takes the descent
into the record of the longer prefix: the slice `key[len(test)+1:]` panics
when it is out of bounds, which it never is for an ASCII key, and else
`getField` goes on in that record. -/
theorem getField_longest_prefix_first :
    (∀ key : GoString,
      prefixIndices key (key.length + 2) key.length
        = (key.length : ℤ) :: dashesBelow key key.length) ∧
    (∀ (R : Runtime) (ro : Bool) (v : Fields) (key : GoString),
      scanPrefixes R ro v key (key.length + 2) key.length
        = firstOutcome R ro v key (prefixIndices key (key.length + 2) key.length)) ∧
    (prefixIndices (str "a-b-c") 7 5).map (fun i => (str "a-b-c").take i.toNat)
      = [str "a-b-c", str "a-b", str "a"] ∧
    (∀ (R : Runtime) (ro : Bool) (v v1 v2 : Fields) (key : GoString) (p1 p2 : Nat)
      (f1 f2 : Field GoValue),
      p1 < p2 → p2 < key.length → key[p1]? = some dash → key[p2]? = some dash →
      FieldByNameFunc R v
          (fun name => R.ToLower (ReplaceDash (key.take p1)) == R.ToLower name)
        = Lookup.found f1 →
      Indirect f1.value = some (GoValue.struct v1) →
      FieldByNameFunc R v
          (fun name => R.ToLower (ReplaceDash (key.take p2)) == R.ToLower name)
        = Lookup.found f2 →
      Indirect f2.value = some (GoValue.struct v2) →
      (∃ pre : List ℤ,
        prefixIndices key (key.length + 2) key.length
          = pre ++ (p2 : ℤ) :: dashesBelow key p2 ∧
        (p1 : ℤ) ∈ dashesBelow key p2 ∧ (∀ x ∈ pre, (p2 : ℤ) < x) ∧
        scanPrefixes R ro v key (key.length + 2) key.length
          = firstOutcome R ro v key (pre ++ [(p2 : ℤ)])) ∧
      ((∀ j : Nat, j ≤ key.length → p2 < j → (j = key.length ∨ key[j]? = some dash) →
          (loopBody R ro v key j).isNone = true) →
        scanPrefixes R ro v key (key.length + 2) key.length
          = (if (R.ToLower (ReplaceDash (key.take p2))).length + 1 ≤ key.length then
              Scan.recurse (ro || (!R.IsExported f2.name && !f2.embedded)) v2
                (key.drop ((R.ToLower (ReplaceDash (key.take p2))).length + 1))
            else Scan.abort Panic.sliceBoundsOutOfRange) ∧
        (isASCII key = true →
          scanPrefixes R ro v key (key.length + 2) key.length
            = Scan.recurse (ro || (!R.IsExported f2.name && !f2.embedded)) v2
                (key.drop ((R.ToLower (ReplaceDash (key.take p2))).length + 1)) ∧
          getField R ro v key
            = getField R (ro || (!R.IsExported f2.name && !f2.embedded)) v2
                (key.drop ((R.ToLower (ReplaceDash (key.take p2))).length + 1))))) := by
  refine ⟨prefixIndices_eq, ?_, by decide, ?_⟩
  · intro R ro v key
    exact scanPrefixes_eq_firstOutcome R ro v key _ _ (by omega) (by push_cast; omega)
  · intro R ro v v1 v2 key p1 p2 f1 f2 h12 h2 hd1 hd2 _ _ hF2 hI2
    constructor
    · obtain ⟨pre, hpre, hgt⟩ := dashesBelow_split key p2 hd2 key.length h2
      refine ⟨(key.length : ℤ) :: pre, ?_, mem_dashesBelow key p1 p2 h12 hd1, ?_, ?_⟩
      · rw [prefixIndices_eq, hpre]; rfl
      · intro x hx
        simp only [List.mem_cons] at hx
        rcases hx with hx | hx
        · omega
        · exact hgt x hx
      · rw [scanPrefixes_eq_firstOutcome R ro v key _ _ (by omega) (by push_cast; omega),
          prefixIndices_eq, hpre]
        obtain ⟨r, hr⟩ := loopBody_partial_struct R ro v v2 key p2 f2 h2 hF2 hI2
        exact firstOutcome_decided R ro v key p2 r hr _ ((key.length : ℤ) :: pre)
    · intro hnone
      have hcont : ∀ j : Nat, p2 < j → j ≤ key.length →
          (j = key.length ∨ key[j]? = some dash) → continuesAt R v key j :=
        fun j h1 h2 h3 => continuesAt_of_loopBody R ro v key j (hnone j h2 h1 h3)
      refine ⟨?_, fun hascii => ?_⟩
      · rw [scanPrefixes_reach R ro v key p2 (by omega) (Or.inr hd2) hcont]
        exact scanPrefixes_partial_struct R ro v v2 key p2 (key.length + 1) f2 h2 hF2 hI2
      · have hb := test_length_le R key hascii p2
        exact getField_descend R ro v v2 key p2 f2 h2 hd2 hF2 hI2 (by omega) hcont

/-- C16, amended, at a concrete input: the root holds the records `A` (with
`BC`) and `AB` (with `C`), which match the prefixes `a` and `a-b` of `a-b-c`,
and no field matches the whole key; the walk descends into `AB` and returns
the value of `AB.C`. -/
theorem getField_longest_prefix_first_witness :
    scanPrefixes asciiRuntime false
        [fld "A" (GoValue.struct [fld "BC" (GoValue.int 2)]),
         fld "AB" (GoValue.struct [fld "C" (GoValue.int 3)])]
        (str "a-b-c") 7 5
      = Scan.recurse false [fld "C" (GoValue.int 3)] (str "-c") ∧
    getField asciiRuntime false
        [fld "A" (GoValue.struct [fld "BC" (GoValue.int 2)]),
         fld "AB" (GoValue.struct [fld "C" (GoValue.int 3)])]
        (str "a-b-c")
      = Except.ok (GoValue.int 3, true) :=
  ⟨(((getField_longest_prefix_first.2.2.2 asciiRuntime false
      [fld "A" (GoValue.struct [fld "BC" (GoValue.int 2)]),
       fld "AB" (GoValue.struct [fld "C" (GoValue.int 3)])]
      [fld "BC" (GoValue.int 2)] [fld "C" (GoValue.int 3)] (str "a-b-c") 1 3
      (fld "A" (GoValue.struct [fld "BC" (GoValue.int 2)]))
      (fld "AB" (GoValue.struct [fld "C" (GoValue.int 3)]))
      (by decide) (by decide) rfl rfl rfl rfl rfl rfl).2 (by decide)).2 rfl).1,
   rfl⟩

/-- C17. Termination and bound: for every record and every ASCII key
`getField` terminates, returning or panicking with a panic of the program (the
loops of the model never run out of fuel), and the slice `key[len(test)+1:]`
of a descent is never out of bounds.  Each descent into a nested record goes
on with a key that is strictly shorter and has strictly fewer `-` characters,
so the number of descents of one lookup is at most the number of `-`
characters of the key. -/
theorem getField_terminates_bounded (R : Runtime) (ro : Bool) (v : Fields) (key : GoString)
    (hascii : isASCII key = true) :
    ((∃ p, p ≠ Panic.outOfFuel ∧ p ≠ Panic.sliceBoundsOutOfRange ∧
        getField R ro v key = Except.error p) ∨
      (∃ r, getField R ro v key = Except.ok r)) ∧
    (∀ (ro1 : Bool) (v1 : Fields) (key1 : GoString),
      scanPrefixes R ro v key (key.length + 2) key.length = Scan.recurse ro1 v1 key1 →
        key1.length < key.length ∧ key1.count dash < key.count dash ∧
        getField R ro v key = getField R ro1 v1 key1) ∧
    descents R ro v key ≤ key.count dash := by
  refine ⟨?_, ?_, descentsLoop_le R _ ro v key hascii⟩
  · cases h : getField R ro v key with
    | error p =>
      exact Or.inl ⟨p, fun hp => getField_ne_outOfFuel R ro v key (hp ▸ h),
        fun hp => getFieldLoop_ne_sliceBounds R _ ro v key hascii (hp ▸ h), rfl⟩
    | ok r => exact Or.inr ⟨r, rfl⟩
  · intro ro1 v1 key1 hs
    obtain ⟨p, _, hd, hk⟩ := scanPrefixes_recurse_spec R ro v key _ _ _ _ _ (by omega) le_rfl
      (Or.inr (Or.inl rfl)) hs
    refine ⟨scanPrefixes_recurse_length R ro v key _ _ _ _ _ hs, ?_,
      getField_of_recurse R ro ro1 v v1 key key1 hs⟩
    rw [hk]
    exact count_dash_drop_lt R key hascii p hd

/-- C17 at a concrete input: the key `a-b-c` against the nested records
`A.B.C` takes two descents, as many as the key has `-` characters, each with a
shorter key. -/
theorem getField_terminates_bounded_witness :
    descents asciiRuntime false
        [fld "A" (GoValue.struct [fld "B" (GoValue.struct [fld "C" (GoValue.int 1)])])]
        (str "a-b-c") ≤ (str "a-b-c").count dash ∧
    descents asciiRuntime false
        [fld "A" (GoValue.struct [fld "B" (GoValue.struct [fld "C" (GoValue.int 1)])])]
        (str "a-b-c") = 2 ∧
    (str "b-c").length < (str "a-b-c").length ∧
    (str "b-c").count dash < (str "a-b-c").count dash :=
  ⟨(getField_terminates_bounded asciiRuntime false
      [fld "A" (GoValue.struct [fld "B" (GoValue.struct [fld "C" (GoValue.int 1)])])]
      (str "a-b-c") rfl).2.2,
   rfl,
   ((getField_terminates_bounded asciiRuntime false
      [fld "A" (GoValue.struct [fld "B" (GoValue.struct [fld "C" (GoValue.int 1)])])]
      (str "a-b-c") rfl).2.1 false
      [fld "B" (GoValue.struct [fld "C" (GoValue.int 1)])] (str "b-c") rfl).1,
   ((getField_terminates_bounded asciiRuntime false
      [fld "A" (GoValue.struct [fld "B" (GoValue.struct [fld "C" (GoValue.int 1)])])]
      (str "a-b-c") rfl).2.1 false
      [fld "B" (GoValue.struct [fld "C" (GoValue.int 1)])] (str "b-c") rfl).2.1⟩

/-- C18. Greedy commitment, no backtracking: the root holds the record field
`AB` with the only field `X` and the record field `A` holding the record `B`
holding `C`.  The chain `A`, `B`, `C` spelled by the segments of `a-b-c`
exists in the root (each segment resolves in the record the one before leads
to, and the whole key resolves once `AB` is taken away), yet `getField`
descends on the longer prefix `a-b` into `AB` and aborts there with the key
that was left, without coming back to the prefix `a`. -/
theorem getField_no_backtracking :
    getField asciiRuntime false
        [fld "AB" (GoValue.struct [fld "X" (GoValue.int 0)]),
         fld "A" (GoValue.struct [fld "B" (GoValue.struct [fld "C" (GoValue.int 1)])])]
        (str "a-b-c")
      = Except.error (Panic.couldNotFindKey (str "-c")) ∧
    scanPrefixes asciiRuntime false
        [fld "AB" (GoValue.struct [fld "X" (GoValue.int 0)]),
         fld "A" (GoValue.struct [fld "B" (GoValue.struct [fld "C" (GoValue.int 1)])])]
        (str "a-b-c") 7 5
      = Scan.recurse false [fld "X" (GoValue.int 0)] (str "-c") ∧
    getField asciiRuntime false
        [fld "AB" (GoValue.struct [fld "X" (GoValue.int 0)]),
         fld "A" (GoValue.struct [fld "B" (GoValue.struct [fld "C" (GoValue.int 1)])])]
        (str "a")
      = Except.ok
          (GoValue.struct [fld "B" (GoValue.struct [fld "C" (GoValue.int 1)])], true) ∧
    getField asciiRuntime false [fld "B" (GoValue.struct [fld "C" (GoValue.int 1)])] (str "b")
      = Except.ok (GoValue.struct [fld "C" (GoValue.int 1)], true) ∧
    getField asciiRuntime false [fld "C" (GoValue.int 1)] (str "c")
      = Except.ok (GoValue.int 1, true) ∧
    getField asciiRuntime false
        [fld "A" (GoValue.struct [fld "B" (GoValue.struct [fld "C" (GoValue.int 1)])])]
        (str "a-b-c")
      = Except.ok (GoValue.int 1, true) :=
  ⟨rfl, rfl, rfl, rfl, rfl, rfl⟩

/-- C19. Nil pointer fields abort the lookup: when the lookup of the whole key
or of a proper dash-boundary prefix `key[:p]` finds a field that holds a nil
pointer, and the lookup of every longer candidate finds no field (it is the
first field that the scan matches), `getField` panics inside `reflect` (in
`Interface` on a full match, in `Type` on a proper prefix): it returns no
value and does not go on to a shorter prefix, and every typed accessor panics
with it instead of returning a zero value or a conversion error. -/
theorem getField_nil_field_aborts (L : Lib) (v : Fields) (key : GoString) (p : Nat)
    (fd : Field GoValue)
    (hp : p ≤ key.length) (hb : p = key.length ∨ key[p]? = some dash)
    (hF : FieldByNameFunc L.toRuntime v
      (fun name => L.ToLower (ReplaceDash (key.take p)) == L.ToLower name) = Lookup.found fd)
    (hnil : fd.value = GoValue.nilPtr)
    (hfirst : ∀ j : Nat, j ≤ key.length → p < j → (j = key.length ∨ key[j]? = some dash) →
      (FieldByNameFunc L.toRuntime v
        (fun name => L.ToLower (ReplaceDash (key.take j)) == L.ToLower name)).isNotFound
          = true) :
    ∃ pn : Panic,
      pn = (if p = key.length then Panic.interfaceOnZeroValue else Panic.typeOnZeroValue) ∧
      (∀ ro : Bool, getField L.toRuntime ro v key = Except.error pn) ∧
      (InputSource.mk v).Int L key = Except.error pn ∧
      (InputSource.mk v).Duration L key = Except.error pn ∧
      (InputSource.mk v).Float64 L key = Except.error pn ∧
      (InputSource.mk v).String L key = Except.error pn ∧
      (InputSource.mk v).StringSlice L key = Except.error pn ∧
      (InputSource.mk v).IntSlice L key = Except.error pn ∧
      (InputSource.mk v).Generic L key = Except.error pn ∧
      (InputSource.mk v).Bool L key = Except.error pn ∧
      (InputSource.mk v).BoolT L key = Except.error pn := by
  have h : ∀ ro : Bool, getField L.toRuntime ro v key
      = Except.error (if p = key.length then Panic.interfaceOnZeroValue
          else Panic.typeOnZeroValue) := fun ro =>
    getField_abort_at L.toRuntime ro v key p fd hp hb hF (by rw [hnil]; rfl)
      (fun j h1 h2 h3 => Or.inl (by
        have := hfirst j h2 h1 h3
        cases hl : FieldByNameFunc L.toRuntime v
            (fun name => L.ToLower (ReplaceDash (key.take j)) == L.ToLower name) with
        | notFound => rfl
        | found x => rw [hl] at this; simp [Lookup.isNotFound] at this
        | nilEmbedded => rw [hl] at this; simp [Lookup.isNotFound] at this))
  refine ⟨_, rfl, h, ?_⟩
  simp [InputSource.Int, InputSource.Duration, InputSource.Float64, InputSource.String,
    InputSource.StringSlice, InputSource.IntSlice, InputSource.Generic, InputSource.Bool,
    InputSource.BoolT, InputSource.get, h false, Except.map]

/-- C19 at concrete inputs: a nil pointer field matched by the whole key, and
one matched by the proper prefix `a-b` of `a-b-c` although the shorter prefix
`a` leads to a value. -/
theorem getField_nil_field_aborts_witness :
    (∃ pn : Panic, pn = Panic.interfaceOnZeroValue ∧
      getField asciiRuntime false [fld "N" GoValue.nilPtr] (str "n") = Except.error pn ∧
      (InputSource.mk [fld "N" GoValue.nilPtr]).Int exampleLib (str "n")
        = Except.error pn) ∧
    (∃ pn : Panic, pn = Panic.typeOnZeroValue ∧
      getField asciiRuntime false
          [fld "AB" GoValue.nilPtr,
           fld "A" (GoValue.struct [fld "BC" (GoValue.int 1)])]
          (str "a-b-c")
        = Except.error pn) :=
  ⟨match getField_nil_field_aborts exampleLib [fld "N" GoValue.nilPtr] (str "n") 1
      (fld "N" GoValue.nilPtr) (by decide) (by decide) rfl rfl (by decide) with
    | ⟨pn, h1, h2, h3, _⟩ => ⟨pn, h1, h2 false, h3⟩,
   match getField_nil_field_aborts exampleLib
      [fld "AB" GoValue.nilPtr, fld "A" (GoValue.struct [fld "BC" (GoValue.int 1)])]
      (str "a-b-c") 3 (fld "AB" GoValue.nilPtr) (by decide) (by decide) rfl rfl
      (by decide) with
    | ⟨pn, h1, h2, _⟩ => ⟨pn, h1, h2 false⟩⟩

end Inputsource
